import Mathlib

/-! Behavior-tree engine (`src/main.cpp`): shallow embedding and verification.

The C++ objects are mutable; the embedding passes their state explicitly.

* `Status` is the `enum class Status`.
* `Blackboard` is the `std::unordered_map<std::string, int>` wrapped by the
  class of the same name, kept as an association list in which `getInt`
  reads the first entry of a key and `setInt` overwrites that entry or
  appends a new one (`data[key] = value`).  Values are `int`; `setInt` and
  `getInt` do no arithmetic, so they are modelled in `Int`.
* `Node` is the class hierarchy `Node` / `Composite` / `Sequence` /
  `Selector` / `ConditionNode` / `ActionNode` as one closed inductive type.
  The only mutable members are the `activeChild` of the composites, so a
  value of `Node` is a tree together with its state.  Children are owned
  (the tree is a tree, no aliasing of `shared_ptr`s).
* A leaf closure `std::function<bool(Blackboard&)>` or
  `std::function<Status(Blackboard&)>` receives the blackboard by non-const
  reference, so it is a function from the state before the call to its
  result and the state after it.  The type `σ` of that state is a parameter:
  it is `Blackboard` for the engine, and may carry more (the text written
  to `std::cout` by the demo's actions) where a caller's closures have
  further effects.
* `tick` returns the status, the node after the call and the state after
  the call.  The loop of a composite's `tick` is embedded twice: as a walk
  down the list of children (`Sequence.run`, `Selector.run`, by structural
  recursion, part of `Node.tick`) and statement by statement on the index
  `activeChild` (`Sequence.whileLoop`, `Selector.whileLoop`); the two are
  proved equal.  `Node.tickFuel` is the whole of `tick` as an interpreter with
  a bound on its steps, in which reading `children[activeChild]` can miss;
  it is proved to end with the result of `Node.tick` and never to miss.
* `BehaviorTree` is the wrapper class; `Demo` is the function `main`, its
  closures acting on the blackboard and on the lines written to `std::cout`.
-/

/-- The `enum class Status` of `main.cpp`. -/
inductive Status where
  | Success
  | Failure
  | Running
  deriving DecidableEq, Repr

/-- The class `Blackboard`: its member `data`, a map from `std::string` to `int`. -/
structure Blackboard where
  data : List (String × Int)
  deriving DecidableEq, Repr

namespace Blackboard

/-- A blackboard as its default constructor leaves it: `data` is empty. -/
def empty : Blackboard := ⟨[]⟩

/-- The lookup `data.find(key)`: the value stored under `key`, if there is one. -/
def find : List (String × Int) → String → Option Int
  | [], _ => none
  | (k, v) :: rest, key => if k = key then some v else find rest key

/-- The assignment `data[key] = value` on the entries: overwrite the entry of `key`,
or add one when `key` has none. -/
def assign : List (String × Int) → String → Int → List (String × Int)
  | [], key, value => [(key, value)]
  | (k, v) :: rest, key, value =>
    if k = key then (k, value) :: rest else (k, v) :: assign rest key value

/-- `Blackboard::setInt`: `data[key] = value`. -/
def setInt (bb : Blackboard) (key : String) (value : Int) : Blackboard :=
  ⟨assign bb.data key value⟩

/-- `Blackboard::getInt`: `it = data.find(key); return (it != data.end()) ? it->second : 0`.
The method is `const`: it returns a value and leaves the blackboard as it is. -/
def getInt (bb : Blackboard) (key : String) : Int :=
  match find bb.data key with
  | some v => v
  | none => 0

end Blackboard

/-- The node classes of `main.cpp`.  `ConditionNode` and `ActionNode` hold their closure;
`Sequence` and `Selector` hold the members of `Composite`: `children` and `activeChild`. -/
inductive Node (σ : Type) where
  | ConditionNode (condition : σ → Bool × σ)
  | ActionNode (action : σ → Status × σ)
  | Sequence (children : List (Node σ)) (activeChild : Nat)
  | Selector (children : List (Node σ)) (activeChild : Nat)

variable {σ : Type}

mutual
/-- The virtual `reset()`: `Node::reset` (empty body) for the two leaf classes,
`Composite::reset` (`activeChild = 0;` then `child->reset()` for each child) for
`Sequence` and `Selector`. -/
def Node.reset : Node σ → Node σ
  | .ConditionNode condition => .ConditionNode condition
  | .ActionNode action => .ActionNode action
  | .Sequence children _ => .Sequence (Composite.resetChildren children) 0
  | .Selector children _ => .Selector (Composite.resetChildren children) 0
/-- The loop `for (auto& child : children) child->reset();` of `Composite::reset`. -/
def Composite.resetChildren : List (Node σ) → List (Node σ)
  | [] => []
  | child :: rest => child.reset :: Composite.resetChildren rest
end

mutual
/-- The virtual `tick(bb)`: status returned, node after the call, state after the call.

For a composite the `while` loop starts at `children[activeChild]`; `Sequence.run` and
`Selector.run` are that loop. -/
def Node.tick : Node σ → σ → Status × Node σ × σ
  | .ConditionNode condition, bb =>
    ((if (condition bb).1 then Status.Success else Status.Failure),
      .ConditionNode condition, (condition bb).2)
  | .ActionNode action, bb => ((action bb).1, .ActionNode action, (action bb).2)
  | .Sequence children activeChild, bb => Sequence.run [] children activeChild bb
  | .Selector children activeChild, bb => Selector.run [] children activeChild bb
/-- The body of `Sequence::tick`, on a composite whose `children` are `before ++ rest`
and whose `activeChild` is `before.length + skip`.

* `rest = []`: `activeChild < children.size()` is false, the loop is left:
  `reset(); return Status::Success;`.
* `skip = k + 1`: the first of `rest` lies before `children[activeChild]`; it is not
  touched and moves to `before`.
* `skip = 0`: the first of `rest` is `children[activeChild]`; it is ticked, and on
  `Running` the call returns, on `Failure` it resets and returns, otherwise
  `activeChild++` and the loop goes on. -/
def Sequence.run : List (Node σ) → List (Node σ) → Nat → σ → Status × Node σ × σ
  | before, [], skip, bb =>
    (Status.Success, (Node.Sequence before (before.length + skip)).reset, bb)
  | before, child :: rest, skip + 1, bb => Sequence.run (before ++ [child]) rest skip bb
  | before, child :: rest, 0, bb =>
    let r := child.tick bb
    if r.1 = Status.Running then
      (Status.Running, Node.Sequence (before ++ r.2.1 :: rest) before.length, r.2.2)
    else if r.1 = Status.Failure then
      (Status.Failure, (Node.Sequence (before ++ r.2.1 :: rest) before.length).reset, r.2.2)
    else
      Sequence.run (before ++ [r.2.1]) rest 0 r.2.2
/-- The body of `Selector::tick`, on a composite whose `children` are `before ++ rest`
and whose `activeChild` is `before.length + skip`; as `Sequence.run`, with `Success`
ending the loop and the exit of the loop returning `Failure`. -/
def Selector.run : List (Node σ) → List (Node σ) → Nat → σ → Status × Node σ × σ
  | before, [], skip, bb =>
    (Status.Failure, (Node.Selector before (before.length + skip)).reset, bb)
  | before, child :: rest, skip + 1, bb => Selector.run (before ++ [child]) rest skip bb
  | before, child :: rest, 0, bb =>
    let r := child.tick bb
    if r.1 = Status.Running then
      (Status.Running, Node.Selector (before ++ r.2.1 :: rest) before.length, r.2.2)
    else if r.1 = Status.Success then
      (Status.Success, (Node.Selector (before ++ r.2.1 :: rest) before.length).reset, r.2.2)
    else
      Selector.run (before ++ [r.2.1]) rest 0 r.2.2
end

/-- The member `activeChild` of a composite (a leaf has none: 0). -/
def Node.activeChild : Node σ → Nat
  | .ConditionNode _ => 0
  | .ActionNode _ => 0
  | .Sequence _ activeChild => activeChild
  | .Selector _ activeChild => activeChild

/-- The member `children` of a composite (a leaf has none). -/
def Node.children : Node σ → List (Node σ)
  | .ConditionNode _ => []
  | .ActionNode _ => []
  | .Sequence children _ => children
  | .Selector children _ => children

/-- Whether the node is a `Composite` (a `Sequence` or a `Selector`). -/
def Node.isComposite : Node σ → Bool
  | .ConditionNode _ => false
  | .ActionNode _ => false
  | .Sequence _ _ => true
  | .Selector _ _ => true

mutual
/-- Every composite of the subtree, the node itself included, has `activeChild = 0`. -/
def Node.allZero : Node σ → Bool
  | .ConditionNode _ => true
  | .ActionNode _ => true
  | .Sequence children activeChild => activeChild == 0 && Composite.childrenAllZero children
  | .Selector children activeChild => activeChild == 0 && Composite.childrenAllZero children
/-- Every node of the list satisfies `Node.allZero`. -/
def Composite.childrenAllZero : List (Node σ) → Bool
  | [] => true
  | child :: rest => child.allZero && Composite.childrenAllZero rest
end

/-- The state left by ticking the nodes of a list one after the other, each on the state
left by the one before. -/
def tickAll : List (Node σ) → σ → σ
  | [], bb => bb
  | child :: rest, bb => tickAll rest (child.tick bb).2.2

/-- The nodes of a list after they have been ticked one after the other, each on the state
left by the one before. -/
def tickedAll : List (Node σ) → σ → List (Node σ)
  | [], _ => []
  | child :: rest, bb => (child.tick bb).2.1 :: tickedAll rest (child.tick bb).2.2

/-- Every node of the list, ticked in order and each on the state left by the one before,
returns the status `s`. -/
def allReturn (s : Status) : List (Node σ) → σ → Prop
  | [], _ => True
  | child :: rest, bb => (child.tick bb).1 = s ∧ allReturn s rest (child.tick bb).2.2

instance allReturn.decidable (s : Status) :
    (l : List (Node σ)) → (bb : σ) → Decidable (allReturn s l bb)
  | [], _ => isTrue trivial
  | child :: rest, bb =>
    have := allReturn.decidable s rest (child.tick bb).2.2
    inferInstanceAs (Decidable (_ ∧ _))

/-! ## The `while` loops as written

`Sequence.run` and `Selector.run` walk down the list of children.  The two functions below
are the loops of `Sequence::tick` and `Selector::tick` statement by statement, on the
index `activeChild`, with the child that was ticked updated in place.  A loop needs a
bound on its iterations in Lean: `fuel`.  `Sequence.seq_whileLoop_eq_tick` and
`Selector.sel_whileLoop_eq_tick` show that `children.size() - activeChild + 1` iterations
are enough and that the loops compute `Node.tick`. -/

/-- The body of `Sequence::tick` as written, with at most `fuel` evaluations of the loop
condition. -/
def Sequence.whileLoop : Nat → List (Node σ) → Nat → σ → Option (Status × Node σ × σ)
  | 0, _, _, _ => none
  | fuel + 1, children, activeChild, bb =>
    if h : activeChild < children.length then
      let r := children[activeChild].tick bb
      if r.1 = Status.Running then
        some (Status.Running, Node.Sequence (children.set activeChild r.2.1) activeChild, r.2.2)
      else if r.1 = Status.Failure then
        some (Status.Failure,
          (Node.Sequence (children.set activeChild r.2.1) activeChild).reset, r.2.2)
      else
        Sequence.whileLoop fuel (children.set activeChild r.2.1) (activeChild + 1) r.2.2
    else
      some (Status.Success, (Node.Sequence children activeChild).reset, bb)

/-- The body of `Selector::tick` as written, with at most `fuel` evaluations of the loop
condition. -/
def Selector.whileLoop : Nat → List (Node σ) → Nat → σ → Option (Status × Node σ × σ)
  | 0, _, _, _ => none
  | fuel + 1, children, activeChild, bb =>
    if h : activeChild < children.length then
      let r := children[activeChild].tick bb
      if r.1 = Status.Running then
        some (Status.Running, Node.Selector (children.set activeChild r.2.1) activeChild, r.2.2)
      else if r.1 = Status.Success then
        some (Status.Success,
          (Node.Selector (children.set activeChild r.2.1) activeChild).reset, r.2.2)
      else
        Selector.whileLoop fuel (children.set activeChild r.2.1) (activeChild + 1) r.2.2
    else
      some (Status.Failure, (Node.Selector children activeChild).reset, bb)

/-! ## Construction of a tree -/

/-- `Composite::addChild`: `children.push_back(child)`.  Only the composites have this
member; a leaf is returned as it is. -/
def Composite.addChild : Node σ → Node σ → Node σ
  | .Sequence children activeChild, child => .Sequence (children ++ [child]) activeChild
  | .Selector children activeChild, child => .Selector (children ++ [child]) activeChild
  | .ConditionNode condition, _ => .ConditionNode condition
  | .ActionNode action, _ => .ActionNode action

/-- What the construction code of a caller fixes about a tree: the kind of each node, the
closure of each leaf, and the children of each composite in the order of their `addChild`.
It holds no `activeChild`. -/
inductive Blueprint (σ : Type) where
  | condition (condition : σ → Bool × σ)
  | action (action : σ → Status × σ)
  | sequence (children : List (Blueprint σ))
  | selector (children : List (Blueprint σ))

mutual
/-- The node as construction leaves it: `std::make_shared<ConditionNode>(cond)`,
`std::make_shared<ActionNode>(act)`, and for a composite `std::make_shared<Sequence>()`
(no children, `activeChild = 0` by the member initialiser) followed by one `addChild`
for each child, built the same way. -/
def Blueprint.build : Blueprint σ → Node σ
  | .condition cond => .ConditionNode cond
  | .action act => .ActionNode act
  | .sequence children => (Blueprint.buildAll children).foldl Composite.addChild (.Sequence [] 0)
  | .selector children => (Blueprint.buildAll children).foldl Composite.addChild (.Selector [] 0)
/-- The nodes built from a list of descriptions, in order. -/
def Blueprint.buildAll : List (Blueprint σ) → List (Node σ)
  | [] => []
  | t :: rest => t.build :: Blueprint.buildAll rest
end

mutual
/-- The tree a node was constructed as: the node without its `activeChild` values. -/
def Node.tree : Node σ → Blueprint σ
  | .ConditionNode condition => .condition condition
  | .ActionNode action => .action action
  | .Sequence children _ => .sequence (Composite.trees children)
  | .Selector children _ => .selector (Composite.trees children)
/-- The trees the nodes of a list were constructed as. -/
def Composite.trees : List (Node σ) → List (Blueprint σ)
  | [] => []
  | child :: rest => child.tree :: Composite.trees rest
end

/-- The caller's loop `for (i = 0; i < count; ++i) tick(bb);` on a node: the statuses
returned, in order, the node after the last tick and the state after it. -/
def tickTimes : Nat → Node σ → σ → List Status × Node σ × σ
  | 0, n, bb => ([], n, bb)
  | count + 1, n, bb =>
    ((n.tick bb).1 :: (tickTimes count (n.tick bb).2.1 (n.tick bb).2.2).1,
      (tickTimes count (n.tick bb).2.1 (n.tick bb).2.2).2)

/-- A blackboard after the calls `setInt(key, value)` for the pairs of `calls`, in order. -/
def Blackboard.setAll (bb : Blackboard) (calls : List (String × Int)) : Blackboard :=
  calls.foldl (fun b call => b.setInt call.1 call.2) bb

/-! ## The end-to-end scenario of the specification -/

namespace Scenario

/-- Modelled from the spec: the action of the end-to-end scenario, which is not in
`main.cpp`.  It keeps a counter in the blackboard under the key `count`, returns `Running`
on its first two invocations (counting them) and `Success` on the third, clearing the
counter; it is `chase` of `main` with two steps in place of three. -/
def action (bb : Blackboard) : Status × Blackboard :=
  if bb.getInt "count" < 2 then
    (Status.Running, bb.setInt "count" (bb.getInt "count" + 1))
  else
    (Status.Success, bb.setInt "count" 0)

/-- The inner `Sequence[Condition(true), Action A]` of the scenario. -/
def inner : Blueprint Blackboard :=
  .sequence [.condition (fun bb => (true, bb)), .action action]

/-- The tree `Selector[Condition(false), Sequence[Condition(true), Action A]]`. -/
def tree : Blueprint Blackboard :=
  .selector [.condition (fun bb => (false, bb)), inner]

/-- The scenario's tree while `A` is running: root and inner Sequence both stand at
their second child. -/
def waiting : Node Blackboard :=
  .Selector [.ConditionNode (fun bb => (false, bb)),
    .Sequence [.ConditionNode (fun bb => (true, bb)), .ActionNode action] 1] 1

end Scenario

/-! ## Small nodes used as concrete inputs -/

namespace Sample

/-- An action that writes 1 under `key` and returns the status `s`. -/
def mark (key : String) (s : Status) : Node Blackboard :=
  .ActionNode (fun bb => (s, bb.setInt key 1))

/-- A condition that holds when `key` carries the value 1; it leaves the blackboard as it is. -/
def marked (key : String) : Node Blackboard :=
  .ConditionNode (fun bb => (decide (bb.getInt key = 1), bb))

/-- Three children: one that fails, one that succeeds and writes `b`, one that tests `b`. -/
def failMarkTest : List (Node Blackboard) :=
  [mark "a" Status.Failure, mark "b" Status.Success, marked "b"]

/-- Three children: one that succeeds, one that fails, one that would write `c`. -/
def markFailMark : List (Node Blackboard) :=
  [mark "a" Status.Success, mark "b" Status.Failure, mark "c" Status.Success]

/-- Three children: one that fails, one that succeeds, one that would write `c`. -/
def failMarkMark : List (Node Blackboard) :=
  [mark "a" Status.Failure, mark "b" Status.Success, mark "c" Status.Success]

/-- Two children that fail. -/
def failFail : List (Node Blackboard) :=
  [mark "a" Status.Failure, mark "b" Status.Failure]

/-- Three children: one that succeeds, one that is still running, one that would write `c`. -/
def markWaitMark : List (Node Blackboard) :=
  [mark "a" Status.Success, mark "b" Status.Running, mark "c" Status.Success]

/-- Three children: one that fails, one that is still running, one that would write `c`. -/
def failWaitMark : List (Node Blackboard) :=
  [mark "a" Status.Failure, mark "b" Status.Running, mark "c" Status.Success]

end Sample

/-! ## The tree wrapper -/

/-- The class `BehaviorTree`: its member `root`. -/
structure BehaviorTree (σ : Type) where
  root : Node σ

/-- `BehaviorTree::tick`: the statement `root->tick(bb);`.  The method is `void`: what it
leaves is the tree, whose root has been ticked, and the state after the call. -/
def BehaviorTree.tick (tree : BehaviorTree σ) (bb : σ) : BehaviorTree σ × σ :=
  (⟨(tree.root.tick bb).2.1⟩, (tree.root.tick bb).2.2)

/-! ## The dual of a tree -/

/-- The status with `Success` and `Failure` swapped; `Running` stays. -/
def Status.swap : Status → Status
  | .Success => .Failure
  | .Failure => .Success
  | .Running => .Running

mutual
/-- The dual of a tree: every Sequence becomes a Selector and every Selector a Sequence,
every condition is negated, every action has `Success` and `Failure` swapped in what it
returns; the `activeChild` values and what the closures do to the state are kept. -/
def Node.dual : Node σ → Node σ
  | .ConditionNode cond => .ConditionNode (fun bb => (!(cond bb).1, (cond bb).2))
  | .ActionNode act => .ActionNode (fun bb => ((act bb).1.swap, (act bb).2))
  | .Sequence children activeChild => .Selector (Composite.duals children) activeChild
  | .Selector children activeChild => .Sequence (Composite.duals children) activeChild
/-- The duals of the nodes of a list. -/
def Composite.duals : List (Node σ) → List (Node σ)
  | [] => []
  | child :: rest => child.dual :: Composite.duals rest
end

/-! ## `tick` as an interpreter with a bound on its steps

`Node.tick` is a total function because Lean accepts its recursion.  The interpreter below
makes no such use of the tree: it follows `main.cpp` call by call and iteration by
iteration, every call of `tick` and every evaluation of a loop condition taking one unit of
`fuel`, and it reads `children[activeChild]` with a lookup that can miss.  That a tick
ends, and that the lookup never misses, are then theorems. -/

/-- What a bounded run of `tick` comes to: it returns `result`, or the bound on its steps
is reached first, or it reads `children[activeChild]` outside the vector. -/
inductive Outcome (α : Type) where
  | done (result : α)
  | outOfFuel
  | outOfBounds

mutual
/-- The virtual `tick(bb)` with at most `fuel` steps. -/
def Node.tickFuel : Nat → Node σ → σ → Outcome (Status × Node σ × σ)
  | 0, _, _ => .outOfFuel
  | _ + 1, .ConditionNode cond, bb =>
    .done ((if (cond bb).1 then Status.Success else Status.Failure),
      .ConditionNode cond, (cond bb).2)
  | _ + 1, .ActionNode act, bb => .done ((act bb).1, .ActionNode act, (act bb).2)
  | fuel + 1, .Sequence children activeChild, bb =>
    Sequence.tickFuel fuel children activeChild bb
  | fuel + 1, .Selector children activeChild, bb =>
    Selector.tickFuel fuel children activeChild bb
/-- The loop of `Sequence::tick` as written, with at most `fuel` steps. -/
def Sequence.tickFuel : Nat → List (Node σ) → Nat → σ → Outcome (Status × Node σ × σ)
  | 0, _, _, _ => .outOfFuel
  | fuel + 1, children, activeChild, bb =>
    if activeChild < children.length then
      match children[activeChild]? with
      | none => .outOfBounds
      | some child =>
        match Node.tickFuel fuel child bb with
        | .done r =>
          if r.1 = Status.Running then
            .done (Status.Running,
              Node.Sequence (children.set activeChild r.2.1) activeChild, r.2.2)
          else if r.1 = Status.Failure then
            .done (Status.Failure,
              (Node.Sequence (children.set activeChild r.2.1) activeChild).reset, r.2.2)
          else
            Sequence.tickFuel fuel (children.set activeChild r.2.1) (activeChild + 1) r.2.2
        | .outOfFuel => .outOfFuel
        | .outOfBounds => .outOfBounds
    else
      .done (Status.Success, (Node.Sequence children activeChild).reset, bb)
/-- The loop of `Selector::tick` as written, with at most `fuel` steps. -/
def Selector.tickFuel : Nat → List (Node σ) → Nat → σ → Outcome (Status × Node σ × σ)
  | 0, _, _, _ => .outOfFuel
  | fuel + 1, children, activeChild, bb =>
    if activeChild < children.length then
      match children[activeChild]? with
      | none => .outOfBounds
      | some child =>
        match Node.tickFuel fuel child bb with
        | .done r =>
          if r.1 = Status.Running then
            .done (Status.Running,
              Node.Selector (children.set activeChild r.2.1) activeChild, r.2.2)
          else if r.1 = Status.Success then
            .done (Status.Success,
              (Node.Selector (children.set activeChild r.2.1) activeChild).reset, r.2.2)
          else
            Selector.tickFuel fuel (children.set activeChild r.2.1) (activeChild + 1) r.2.2
        | .outOfFuel => .outOfFuel
        | .outOfBounds => .outOfBounds
    else
      .done (Status.Failure, (Node.Selector children activeChild).reset, bb)
end

mutual
/-- A number of steps within which the tick of a node ends, whatever its state and
the blackboard: one for the call, and for a composite what its children may take. -/
def Node.cost : Node σ → Nat
  | .ConditionNode _ => 1
  | .ActionNode _ => 1
  | .Sequence children _ => 1 + Composite.cost children
  | .Selector children _ => 1 + Composite.cost children
/-- A number of steps within which the loop over the children of a list ends: one
evaluation of the loop condition and one tick for each child, and the evaluation
that leaves the loop. -/
def Composite.cost : List (Node σ) → Nat
  | [] => 1
  | child :: rest => 1 + child.cost + Composite.cost rest
end

/-! ## States of a tree -/

mutual
/-- Every composite of the subtree, the node itself included, has its `activeChild`
within `[0, children.size()]`. -/
def Node.inBounds : Node σ → Bool
  | .ConditionNode _ => true
  | .ActionNode _ => true
  | .Sequence children activeChild =>
    decide (activeChild ≤ children.length) && Composite.childrenInBounds children
  | .Selector children activeChild =>
    decide (activeChild ≤ children.length) && Composite.childrenInBounds children
/-- Every node of the list satisfies `Node.inBounds`. -/
def Composite.childrenInBounds : List (Node σ) → Bool
  | [] => true
  | child :: rest => child.inBounds && Composite.childrenInBounds rest
end

/-- The nodes that the operations of `main.cpp` produce: the constructors give a leaf or a
composite without children, and `addChild` (of a node obtained the same way), `tick` (on
any state of the blackboard) and `reset` apply to what has been produced. -/
inductive Composite.Operated : Node σ → Prop where
  | condition (cond : σ → Bool × σ) : Composite.Operated (Node.ConditionNode cond)
  | action (act : σ → Status × σ) : Composite.Operated (Node.ActionNode act)
  | sequence : Composite.Operated (Node.Sequence [] 0)
  | selector : Composite.Operated (Node.Selector [] 0)
  | addChild {parent child : Node σ} : Composite.Operated parent → Composite.Operated child →
      Composite.Operated (Composite.addChild parent child)
  | tick {n : Node σ} (bb : σ) : Composite.Operated n → Composite.Operated (n.tick bb).2.1
  | reset {n : Node σ} : Composite.Operated n → Composite.Operated n.reset

/-- A Sequence built by the constructor and two `addChild`, then ticked once: its first
child has succeeded and its second is still running. -/
def Sample.operated : Node Blackboard :=
  ((Composite.addChild
      (Composite.addChild (Node.Sequence [] 0) (Sample.mark "a" Status.Success))
      (Sample.mark "b" Status.Running)).tick Blackboard.empty).2.1

/-- Every node of the list other than the one at position `activeChild` satisfies
`Node.allZero`. -/
def Composite.othersAllZero : List (Node σ) → Nat → Bool
  | [], _ => true
  | _ :: rest, 0 => Composite.childrenAllZero rest
  | child :: rest, activeChild + 1 => child.allZero && Composite.othersAllZero rest activeChild

mutual
/-- For every composite of the subtree, the node itself included, every child other than
the one at position `activeChild` is fully reset: progress lies only along the chain of
active children. -/
def Node.singleChain : Node σ → Bool
  | .ConditionNode _ => true
  | .ActionNode _ => true
  | .Sequence children activeChild =>
    Composite.othersAllZero children activeChild && Composite.childrenSingleChain children
  | .Selector children activeChild =>
    Composite.othersAllZero children activeChild && Composite.childrenSingleChain children
/-- Every node of the list satisfies `Node.singleChain`. -/
def Composite.childrenSingleChain : List (Node σ) → Bool
  | [] => true
  | child :: rest => child.singleChain && Composite.childrenSingleChain rest
end

/-- The states of a tree reachable from the freshly constructed tree by ticks, on any
state of the blackboard, and resets. -/
inductive Composite.Reachable : Node σ → Prop where
  | fresh (tree : Blueprint σ) : Composite.Reachable tree.build
  | tick {n : Node σ} (bb : σ) : Composite.Reachable n → Composite.Reachable (n.tick bb).2.1
  | reset {n : Node σ} : Composite.Reachable n → Composite.Reachable n.reset

/-! ## A tick that does not reset the children -/

mutual
/-- The variant of `tick` of claim C20: as `Node.tick`, but where `Sequence::tick` and
`Selector::tick` call `reset()` the variant executes `activeChild = 0;` alone, without
`child->reset()` on the children.  Children are ticked by the variant as well. -/
def Node.tickOwnReset : Node σ → σ → Status × Node σ × σ
  | .ConditionNode cond, bb =>
    ((if (cond bb).1 then Status.Success else Status.Failure), .ConditionNode cond, (cond bb).2)
  | .ActionNode act, bb => ((act bb).1, .ActionNode act, (act bb).2)
  | .Sequence children activeChild, bb => Sequence.runOwnReset [] children activeChild bb
  | .Selector children activeChild, bb => Selector.runOwnReset [] children activeChild bb
/-- The loop of `Sequence::tick` in the variant, laid out as `Sequence.run`. -/
def Sequence.runOwnReset : List (Node σ) → List (Node σ) → Nat → σ → Status × Node σ × σ
  | before, [], _, bb => (Status.Success, Node.Sequence before 0, bb)
  | before, child :: rest, skip + 1, bb => Sequence.runOwnReset (before ++ [child]) rest skip bb
  | before, child :: rest, 0, bb =>
    let r := child.tickOwnReset bb
    if r.1 = Status.Running then
      (Status.Running, Node.Sequence (before ++ r.2.1 :: rest) before.length, r.2.2)
    else if r.1 = Status.Failure then
      (Status.Failure, Node.Sequence (before ++ r.2.1 :: rest) 0, r.2.2)
    else
      Sequence.runOwnReset (before ++ [r.2.1]) rest 0 r.2.2
/-- The loop of `Selector::tick` in the variant, laid out as `Selector.run`. -/
def Selector.runOwnReset : List (Node σ) → List (Node σ) → Nat → σ → Status × Node σ × σ
  | before, [], _, bb => (Status.Failure, Node.Selector before 0, bb)
  | before, child :: rest, skip + 1, bb => Selector.runOwnReset (before ++ [child]) rest skip bb
  | before, child :: rest, 0, bb =>
    let r := child.tickOwnReset bb
    if r.1 = Status.Running then
      (Status.Running, Node.Selector (before ++ r.2.1 :: rest) before.length, r.2.2)
    else if r.1 = Status.Success then
      (Status.Success, Node.Selector (before ++ r.2.1 :: rest) 0, r.2.2)
    else
      Selector.runOwnReset (before ++ [r.2.1]) rest 0 r.2.2
end

/-! ## What the actions returned during a tick -/

mutual
/-- The tree with a record of its actions: every `ActionNode` appends the status its step
function returns to a list carried next to the state; conditions and composites are as
they are. -/
def Node.logged : Node σ → Node (σ × List Status)
  | .ConditionNode cond => .ConditionNode (fun w => ((cond w.1).1, ((cond w.1).2, w.2)))
  | .ActionNode act => .ActionNode (fun w => ((act w.1).1, ((act w.1).2, w.2 ++ [(act w.1).1])))
  | .Sequence children activeChild => .Sequence (Composite.loggedAll children) activeChild
  | .Selector children activeChild => .Selector (Composite.loggedAll children) activeChild
/-- The nodes of a list, each with the record of its actions. -/
def Composite.loggedAll : List (Node σ) → List (Node (σ × List Status))
  | [] => []
  | child :: rest => child.logged :: Composite.loggedAll rest
end

/-- The statuses that the step functions of the `ActionNode`s invoked during one tick
return, in the order of their invocation. -/
def Node.actionResults (n : Node σ) (bb : σ) : List Status :=
  (n.logged.tick (bb, [])).2.2.2

mutual
/-- The tree is built only from ConditionNodes, Sequences and Selectors. -/
def Node.hasNoAction : Node σ → Bool
  | .ConditionNode _ => true
  | .ActionNode _ => false
  | .Sequence children _ => Composite.haveNoAction children
  | .Selector children _ => Composite.haveNoAction children
/-- Every node of the list satisfies `Node.hasNoAction`. -/
def Composite.haveNoAction : List (Node σ) → Bool
  | [] => true
  | child :: rest => child.hasNoAction && Composite.haveNoAction rest
end

/-! ## The demo of `main` -/

namespace Demo

/-- What the closures of `main` act on: the blackboard they receive and the lines they
write to `std::cout`.  Every output statement of `main.cpp` writes one whole line, so the
output is kept as the list of its lines. -/
structure World where
  bb : Blackboard
  out : List String
  deriving DecidableEq, Repr

/-- The statement `std::cout << line << "\n";`. -/
def World.print (w : World) (line : String) : World :=
  { w with out := w.out ++ [line] }

/-- The condition `lowHealth`: `bb.getInt("health") < 30`. -/
def lowHealth : Node World :=
  .ConditionNode (fun w => (decide (w.bb.getInt "health" < 30), w))

/-- The condition `playerNear`: `bb.getInt("playerDistance") < 10`. -/
def playerNear : Node World :=
  .ConditionNode (fun w => (decide (w.bb.getInt "playerDistance" < 10), w))

/-- The action `attack`: it writes `attacking Player` and returns `Success`. -/
def attack : Node World :=
  .ActionNode (fun w => (Status.Success, w.print "attacking Player"))

/-- The step function of the action `chase`.  `progress` is below 3 where 1 is added to
it, so the `int` addition does not overflow. -/
def chaseStep (w : World) : Status × World :=
  if w.bb.getInt "chaseProgress" < 3 then
    (Status.Running,
      { bb := w.bb.setInt "chaseProgress" (w.bb.getInt "chaseProgress" + 1),
        out := w.out ++ ["chasing step " ++ toString (w.bb.getInt "chaseProgress")] })
  else
    (Status.Success,
      { bb := (w.bb.setInt "playerDistance" 5).setInt "chaseProgress" 0,
        out := w.out ++ ["Reached player"] })

/-- The action `chase`. -/
def chase : Node World := .ActionNode chaseStep

/-- The action `idle`: it writes `Idling` and returns `Success`. -/
def idle : Node World :=
  .ActionNode (fun w => (Status.Success, w.print "Idling"))

/-- The composite `attackSeq` as `main` builds it. -/
def attackSeq : Node World :=
  Composite.addChild (Composite.addChild (.Sequence [] 0) playerNear) attack

/-- The composite `chaseSeq` as `main` builds it. -/
def chaseSeq : Node World :=
  Composite.addChild (.Sequence [] 0) chase

/-- The composite `root` as `main` builds it. -/
def root : Node World :=
  Composite.addChild
    (Composite.addChild
      (Composite.addChild (Composite.addChild (.Selector [] 0) lowHealth) attackSeq)
      chaseSeq)
    idle

/-- The blackboard of `main` after its three `setInt`, and nothing written yet. -/
def start : World :=
  { bb := ((Blackboard.empty.setInt "health" 100).setInt "playerDistance" 15).setInt
      "chaseProgress" 0,
    out := [] }

/-- The loop `for (int i = 0; i < 8; ++i)` of `main` from the iteration `i` on, `count`
iterations being left: it writes `Tick i:`, calls `tree.tick(bb)` and writes an empty
line. -/
def loop : Nat → Nat → BehaviorTree World → World → BehaviorTree World × World
  | 0, _, tree, w => (tree, w)
  | count + 1, i, tree, w =>
    loop count (i + 1) (tree.tick (w.print ("Tick " ++ toString i ++ ":"))).1
      ((tree.tick (w.print ("Tick " ++ toString i ++ ":"))).2.print "")

/-- The function `main`: the tree and the world it ends with. -/
def main : BehaviorTree World × World :=
  loop 8 0 ⟨root⟩ start

end Demo

/-! ## The loop of `tick`, step by step -/

theorem Sequence.seq_run_nil (before : List (Node σ)) (skip : Nat) (bb : σ) :
    Sequence.run before [] skip bb
      = (Status.Success, (Node.Sequence before (before.length + skip)).reset, bb) := by
  cases skip <;> simp [Sequence.run]

theorem Sequence.seq_run_skip (before : List (Node σ)) (child : Node σ) (rest : List (Node σ))
    (skip : Nat) (bb : σ) :
    Sequence.run before (child :: rest) (skip + 1) bb
      = Sequence.run (before ++ [child]) rest skip bb := by
  simp [Sequence.run]

theorem Sequence.seq_run_zero (before : List (Node σ)) (child : Node σ) (rest : List (Node σ))
    (bb : σ) :
    Sequence.run before (child :: rest) 0 bb
      = if (child.tick bb).1 = Status.Running then
          (Status.Running, Node.Sequence (before ++ (child.tick bb).2.1 :: rest) before.length,
            (child.tick bb).2.2)
        else if (child.tick bb).1 = Status.Failure then
          (Status.Failure,
            (Node.Sequence (before ++ (child.tick bb).2.1 :: rest) before.length).reset,
            (child.tick bb).2.2)
        else Sequence.run (before ++ [(child.tick bb).2.1]) rest 0 (child.tick bb).2.2 := by
  simp [Sequence.run]

theorem Selector.sel_run_nil (before : List (Node σ)) (skip : Nat) (bb : σ) :
    Selector.run before [] skip bb
      = (Status.Failure, (Node.Selector before (before.length + skip)).reset, bb) := by
  cases skip <;> simp [Selector.run]

theorem Selector.sel_run_skip (before : List (Node σ)) (child : Node σ) (rest : List (Node σ))
    (skip : Nat) (bb : σ) :
    Selector.run before (child :: rest) (skip + 1) bb
      = Selector.run (before ++ [child]) rest skip bb := by
  simp [Selector.run]

theorem Selector.sel_run_zero (before : List (Node σ)) (child : Node σ) (rest : List (Node σ))
    (bb : σ) :
    Selector.run before (child :: rest) 0 bb
      = if (child.tick bb).1 = Status.Running then
          (Status.Running, Node.Selector (before ++ (child.tick bb).2.1 :: rest) before.length,
            (child.tick bb).2.2)
        else if (child.tick bb).1 = Status.Success then
          (Status.Success,
            (Node.Selector (before ++ (child.tick bb).2.1 :: rest) before.length).reset,
            (child.tick bb).2.2)
        else Selector.run (before ++ [(child.tick bb).2.1]) rest 0 (child.tick bb).2.2 := by
  simp [Selector.run]

theorem Node.tick_Sequence (children : List (Node σ)) (activeChild : Nat) (bb : σ) :
    (Node.Sequence children activeChild).tick bb = Sequence.run [] children activeChild bb := by
  simp [Node.tick]

theorem Node.tick_Selector (children : List (Node σ)) (activeChild : Nat) (bb : σ) :
    (Node.Selector children activeChild).tick bb = Selector.run [] children activeChild bb := by
  simp [Node.tick]

/-! ## `reset` -/

theorem Composite.resetChildren_eq_map (l : List (Node σ)) :
    Composite.resetChildren l = l.map Node.reset := by
  induction l with
  | nil => simp [Composite.resetChildren]
  | cons c l ih => simp [Composite.resetChildren, ih]

theorem Node.reset_Sequence (children : List (Node σ)) (activeChild : Nat) :
    (Node.Sequence children activeChild).reset = Node.Sequence (children.map Node.reset) 0 := by
  simp [Node.reset, Composite.resetChildren_eq_map]

theorem Node.reset_Selector (children : List (Node σ)) (activeChild : Nat) :
    (Node.Selector children activeChild).reset = Node.Selector (children.map Node.reset) 0 := by
  simp [Node.reset, Composite.resetChildren_eq_map]

theorem Composite.childrenAllZero_iff (l : List (Node σ)) :
    Composite.childrenAllZero l = true ↔ ∀ c ∈ l, c.allZero = true := by
  induction l with
  | nil => simp [Composite.childrenAllZero]
  | cons c l ih => simp [Composite.childrenAllZero, ih]

mutual
theorem Node.reset_reset : ∀ n : Node σ, n.reset.reset = n.reset
  | .ConditionNode _ => rfl
  | .ActionNode _ => rfl
  | .Sequence children _ => by
    simp [Node.reset, Composite.resetChildren_idem children]
  | .Selector children _ => by
    simp [Node.reset, Composite.resetChildren_idem children]
theorem Composite.resetChildren_idem : ∀ l : List (Node σ),
    Composite.resetChildren (Composite.resetChildren l) = Composite.resetChildren l
  | [] => rfl
  | c :: l => by
    simp [Composite.resetChildren, Node.reset_reset c, Composite.resetChildren_idem l]
end

theorem Node.reset_comp_reset : (Node.reset ∘ Node.reset : Node σ → Node σ) = Node.reset :=
  funext fun n => Node.reset_reset n

mutual
theorem Node.reset_allZero : ∀ n : Node σ, n.reset.allZero = true
  | .ConditionNode _ => rfl
  | .ActionNode _ => rfl
  | .Sequence children _ => by
    simp [Node.reset, Node.allZero, Composite.resetChildren_allZero children]
  | .Selector children _ => by
    simp [Node.reset, Node.allZero, Composite.resetChildren_allZero children]
theorem Composite.resetChildren_allZero : ∀ l : List (Node σ),
    Composite.childrenAllZero (Composite.resetChildren l) = true
  | [] => rfl
  | c :: l => by
    simp [Composite.resetChildren, Composite.childrenAllZero, Node.reset_allZero c,
      Composite.resetChildren_allZero l]
end

mutual
theorem Node.reset_of_allZero : ∀ n : Node σ, n.allZero = true → n.reset = n
  | .ConditionNode _, _ => rfl
  | .ActionNode _, _ => rfl
  | .Sequence children a, h => by
    simp only [Node.allZero, Bool.and_eq_true, beq_iff_eq] at h
    simp [Node.reset, Composite.resetChildren_of_allZero children h.2, h.1]
  | .Selector children a, h => by
    simp only [Node.allZero, Bool.and_eq_true, beq_iff_eq] at h
    simp [Node.reset, Composite.resetChildren_of_allZero children h.2, h.1]
theorem Composite.resetChildren_of_allZero : ∀ l : List (Node σ),
    Composite.childrenAllZero l = true → Composite.resetChildren l = l
  | [], _ => rfl
  | c :: l, h => by
    simp only [Composite.childrenAllZero, Bool.and_eq_true] at h
    simp [Composite.resetChildren, Node.reset_of_allZero c h.1,
      Composite.resetChildren_of_allZero l h.2]
end

/-! ## `tick` changes nothing but `activeChild` -/

mutual
theorem Node.tick_reset : ∀ (n : Node σ) (bb : σ), (n.tick bb).2.1.reset = n.reset
  | .ConditionNode _, _ => rfl
  | .ActionNode _, _ => rfl
  | .Sequence children a, bb => by
    rw [Node.tick_Sequence, Sequence.seq_run_reset children [] a bb, Node.reset_Sequence]
    simp
  | .Selector children a, bb => by
    rw [Node.tick_Selector, Selector.sel_run_reset children [] a bb, Node.reset_Selector]
    simp
theorem Sequence.seq_run_reset : ∀ (rest before : List (Node σ)) (skip : Nat) (bb : σ),
    (Sequence.run before rest skip bb).2.1.reset
      = Node.Sequence ((before ++ rest).map Node.reset) 0
  | [], before, skip, bb => by
    rw [Sequence.seq_run_nil]
    simp [Node.reset_reset, Node.reset_Sequence]
  | child :: rest, before, skip + 1, bb => by
    rw [Sequence.seq_run_skip, Sequence.seq_run_reset rest]
    simp
  | child :: rest, before, 0, bb => by
    rw [Sequence.seq_run_zero]
    have hc := Node.tick_reset child bb
    split_ifs
    · simp [Node.reset_Sequence, hc]
    · simp [Node.reset_reset, Node.reset_comp_reset, Node.reset_Sequence, hc]
    · rw [Sequence.seq_run_reset rest]
      simp [hc]
theorem Selector.sel_run_reset : ∀ (rest before : List (Node σ)) (skip : Nat) (bb : σ),
    (Selector.run before rest skip bb).2.1.reset
      = Node.Selector ((before ++ rest).map Node.reset) 0
  | [], before, skip, bb => by
    rw [Selector.sel_run_nil]
    simp [Node.reset_reset, Node.reset_Selector]
  | child :: rest, before, skip + 1, bb => by
    rw [Selector.sel_run_skip, Selector.sel_run_reset rest]
    simp
  | child :: rest, before, 0, bb => by
    rw [Selector.sel_run_zero]
    have hc := Node.tick_reset child bb
    split_ifs
    · simp [Node.reset_Selector, hc]
    · simp [Node.reset_reset, Node.reset_comp_reset, Node.reset_Selector, hc]
    · rw [Selector.sel_run_reset rest]
      simp [hc]
end

/-! ## A terminal status leaves the composite reset -/

theorem Sequence.seq_run_terminal (rest : List (Node σ)) :
    ∀ (before : List (Node σ)) (skip : Nat) (bb : σ),
      (Sequence.run before rest skip bb).1 ≠ Status.Running →
      (Sequence.run before rest skip bb).2.1 = Node.Sequence ((before ++ rest).map Node.reset) 0 := by
  induction rest with
  | nil =>
    intro before skip bb _
    rw [Sequence.seq_run_nil]
    simp [Node.reset_Sequence]
  | cons child rest ih =>
    intro before skip bb h
    cases skip with
    | succ k =>
      rw [Sequence.seq_run_skip] at h ⊢
      rw [ih _ _ _ h]
      simp
    | zero =>
      rw [Sequence.seq_run_zero] at h ⊢
      have hc := Node.tick_reset child bb
      split_ifs at h ⊢ with h1 h2
      · simp at h
      · simp [Node.reset_Sequence, hc]
      · rw [ih _ _ _ h]
        simp [hc]

theorem Selector.sel_run_terminal (rest : List (Node σ)) :
    ∀ (before : List (Node σ)) (skip : Nat) (bb : σ),
      (Selector.run before rest skip bb).1 ≠ Status.Running →
      (Selector.run before rest skip bb).2.1 = Node.Selector ((before ++ rest).map Node.reset) 0 := by
  induction rest with
  | nil =>
    intro before skip bb _
    rw [Selector.sel_run_nil]
    simp [Node.reset_Selector]
  | cons child rest ih =>
    intro before skip bb h
    cases skip with
    | succ k =>
      rw [Selector.sel_run_skip] at h ⊢
      rw [ih _ _ _ h]
      simp
    | zero =>
      rw [Selector.sel_run_zero] at h ⊢
      have hc := Node.tick_reset child bb
      split_ifs at h ⊢ with h1 h2
      · simp at h
      · simp [Node.reset_Selector, hc]
      · rw [ih _ _ _ h]
        simp [hc]

/-! ## Where the loop starts, and how it runs through children that let it go on -/

theorem Sequence.seq_run_take_drop (rest : List (Node σ)) :
    ∀ (before : List (Node σ)) (skip : Nat) (bb : σ),
      Sequence.run before rest skip bb
        = Sequence.run (before ++ rest.take skip) (rest.drop skip) 0 bb := by
  induction rest with
  | nil =>
    intro before skip bb
    simp [Sequence.seq_run_nil, Node.reset_Sequence]
  | cons child rest ih =>
    intro before skip bb
    cases skip with
    | zero => simp
    | succ k =>
      rw [Sequence.seq_run_skip, ih]
      simp

theorem Selector.sel_run_take_drop (rest : List (Node σ)) :
    ∀ (before : List (Node σ)) (skip : Nat) (bb : σ),
      Selector.run before rest skip bb
        = Selector.run (before ++ rest.take skip) (rest.drop skip) 0 bb := by
  induction rest with
  | nil =>
    intro before skip bb
    simp [Selector.sel_run_nil, Node.reset_Selector]
  | cons child rest ih =>
    intro before skip bb
    cases skip with
    | zero => simp
    | succ k =>
      rw [Selector.sel_run_skip, ih]
      simp

theorem Sequence.run_allSuccess (mid : List (Node σ)) :
    ∀ (before rest : List (Node σ)) (bb : σ), allReturn Status.Success mid bb →
      Sequence.run before (mid ++ rest) 0 bb
        = Sequence.run (before ++ tickedAll mid bb) rest 0 (tickAll mid bb) := by
  induction mid with
  | nil =>
    intro before rest bb _
    simp [tickedAll, tickAll]
  | cons child mid ih =>
    intro before rest bb h
    obtain ⟨h1, h2⟩ := h
    rw [List.cons_append, Sequence.seq_run_zero, if_neg (by simp [h1]), if_neg (by simp [h1]),
      ih _ _ _ h2]
    simp [tickedAll, tickAll]

theorem Selector.run_allFailure (mid : List (Node σ)) :
    ∀ (before rest : List (Node σ)) (bb : σ), allReturn Status.Failure mid bb →
      Selector.run before (mid ++ rest) 0 bb
        = Selector.run (before ++ tickedAll mid bb) rest 0 (tickAll mid bb) := by
  induction mid with
  | nil =>
    intro before rest bb _
    simp [tickedAll, tickAll]
  | cons child mid ih =>
    intro before rest bb h
    obtain ⟨h1, h2⟩ := h
    rw [List.cons_append, Selector.sel_run_zero, if_neg (by simp [h1]), if_neg (by simp [h1]),
      ih _ _ _ h2]
    simp [tickedAll, tickAll]

theorem tickedAll_length (l : List (Node σ)) : ∀ bb : σ, (tickedAll l bb).length = l.length := by
  induction l with
  | nil => intro bb; rfl
  | cons c l ih => intro bb; simp [tickedAll, ih]

/-- A list from position `a` on, cut at `k ≥ a`: the elements from `a` up to `k`, the one
at `k`, and those after it. -/
theorem List.drop_split_at (l : List α) (a k : Nat) (hak : a ≤ k) (hk : k < l.length) :
    l.drop a = (l.drop a).take (k - a) ++ l[k] :: l.drop (k + 1) := by
  have h1 : (l.drop a).drop (k - a) = l[k] :: l.drop (k + 1) := by
    rw [List.drop_drop, show a + (k - a) = k by omega]
    exact List.drop_eq_getElem_cons hk
  rw [← h1, List.take_append_drop]

/-- The tick of a Sequence whose loop reaches the child at position `k`: the children from
`activeChild` up to `k` have returned `Success`, and the loop stands before child `k`. -/
theorem Sequence.seq_tick_reach (children : List (Node σ)) (activeChild k : Nat) (bb : σ)
    (hak : activeChild ≤ k) (hk : k < children.length)
    (h : allReturn Status.Success ((children.drop activeChild).take (k - activeChild)) bb) :
    (Node.Sequence children activeChild).tick bb
      = Sequence.run
          (children.take activeChild
            ++ tickedAll ((children.drop activeChild).take (k - activeChild)) bb)
          (children[k] :: children.drop (k + 1)) 0
          (tickAll ((children.drop activeChild).take (k - activeChild)) bb) := by
  rw [Node.tick_Sequence, Sequence.seq_run_take_drop]
  have hd := List.drop_split_at children activeChild k hak hk
  rw [List.nil_append]
  conv_lhs => rw [hd]
  rw [Sequence.run_allSuccess _ _ _ _ h]

/-- The tick of a Selector whose loop reaches the child at position `k`: the children from
`activeChild` up to `k` have returned `Failure`, and the loop stands before child `k`. -/
theorem Selector.sel_tick_reach (children : List (Node σ)) (activeChild k : Nat) (bb : σ)
    (hak : activeChild ≤ k) (hk : k < children.length)
    (h : allReturn Status.Failure ((children.drop activeChild).take (k - activeChild)) bb) :
    (Node.Selector children activeChild).tick bb
      = Selector.run
          (children.take activeChild
            ++ tickedAll ((children.drop activeChild).take (k - activeChild)) bb)
          (children[k] :: children.drop (k + 1)) 0
          (tickAll ((children.drop activeChild).take (k - activeChild)) bb) := by
  rw [Node.tick_Selector, Selector.sel_run_take_drop]
  have hd := List.drop_split_at children activeChild k hak hk
  rw [List.nil_append]
  conv_lhs => rw [hd]
  rw [Selector.run_allFailure _ _ _ _ h]

/-! ## The children before `activeChild` take no part in a tick -/

theorem Sequence.seq_run_before (rest : List (Node σ)) :
    ∀ (before : List (Node σ)) (bb : σ),
      (Sequence.run before rest 0 bb).1 = (Sequence.run [] rest 0 bb).1 ∧
      (Sequence.run before rest 0 bb).2.2 = (Sequence.run [] rest 0 bb).2.2 ∧
      (Sequence.run before rest 0 bb).2.1
        = if (Sequence.run [] rest 0 bb).1 = Status.Running then
            Node.Sequence (before ++ (Sequence.run [] rest 0 bb).2.1.children)
              (before.length + (Sequence.run [] rest 0 bb).2.1.activeChild)
          else
            Node.Sequence (before.map Node.reset ++ (Sequence.run [] rest 0 bb).2.1.children) 0 := by
  induction rest with
  | nil =>
    intro before bb
    simp [Sequence.seq_run_nil, Node.reset_Sequence, Node.children]
  | cons child rest ih =>
    intro before bb
    rw [Sequence.seq_run_zero, Sequence.seq_run_zero]
    by_cases h1 : (child.tick bb).1 = Status.Running
    · simp [h1, Node.children, Node.activeChild]
    · by_cases h2 : (child.tick bb).1 = Status.Failure
      · simp [h2, Node.reset_Sequence, Node.children]
      · rw [if_neg h1, if_neg h2, if_neg h1, if_neg h2]
        obtain ⟨a1, a2, a3⟩ := ih (before ++ [(child.tick bb).2.1]) (child.tick bb).2.2
        obtain ⟨b1, b2, b3⟩ := ih ([] ++ [(child.tick bb).2.1]) (child.tick bb).2.2
        refine ⟨by rw [a1, b1], by rw [a2, b2], ?_⟩
        rw [a3, b3, b1]
        by_cases h3 : (Sequence.run [] rest 0 (child.tick bb).2.2).1 = Status.Running
        · simp [h3, Node.children, Node.activeChild]
          omega
        · simp [h3, Node.children]

theorem Selector.sel_run_before (rest : List (Node σ)) :
    ∀ (before : List (Node σ)) (bb : σ),
      (Selector.run before rest 0 bb).1 = (Selector.run [] rest 0 bb).1 ∧
      (Selector.run before rest 0 bb).2.2 = (Selector.run [] rest 0 bb).2.2 ∧
      (Selector.run before rest 0 bb).2.1
        = if (Selector.run [] rest 0 bb).1 = Status.Running then
            Node.Selector (before ++ (Selector.run [] rest 0 bb).2.1.children)
              (before.length + (Selector.run [] rest 0 bb).2.1.activeChild)
          else
            Node.Selector (before.map Node.reset ++ (Selector.run [] rest 0 bb).2.1.children) 0 := by
  induction rest with
  | nil =>
    intro before bb
    simp [Selector.sel_run_nil, Node.reset_Selector, Node.children]
  | cons child rest ih =>
    intro before bb
    rw [Selector.sel_run_zero, Selector.sel_run_zero]
    by_cases h1 : (child.tick bb).1 = Status.Running
    · simp [h1, Node.children, Node.activeChild]
    · by_cases h2 : (child.tick bb).1 = Status.Success
      · simp [h2, Node.reset_Selector, Node.children]
      · rw [if_neg h1, if_neg h2, if_neg h1, if_neg h2]
        obtain ⟨a1, a2, a3⟩ := ih (before ++ [(child.tick bb).2.1]) (child.tick bb).2.2
        obtain ⟨b1, b2, b3⟩ := ih ([] ++ [(child.tick bb).2.1]) (child.tick bb).2.2
        refine ⟨by rw [a1, b1], by rw [a2, b2], ?_⟩
        rw [a3, b3, b1]
        by_cases h3 : (Selector.run [] rest 0 (child.tick bb).2.2).1 = Status.Running
        · simp [h3, Node.children, Node.activeChild]
          omega
        · simp [h3, Node.children]

/-- A Sequence whose `activeChild` is `before.length` ticks as the Sequence of its
children from `activeChild` on does from its first child; the children before are
carried along untouched (`Running`) or reset (terminal status). -/
theorem Sequence.seq_tick_append (before rest : List (Node σ)) (bb : σ) :
    ((Node.Sequence (before ++ rest) before.length).tick bb).1
        = ((Node.Sequence rest 0).tick bb).1 ∧
    ((Node.Sequence (before ++ rest) before.length).tick bb).2.2
        = ((Node.Sequence rest 0).tick bb).2.2 ∧
    ((Node.Sequence (before ++ rest) before.length).tick bb).2.1
        = if ((Node.Sequence rest 0).tick bb).1 = Status.Running then
            Node.Sequence (before ++ ((Node.Sequence rest 0).tick bb).2.1.children)
              (before.length + ((Node.Sequence rest 0).tick bb).2.1.activeChild)
          else
            Node.Sequence
              (before.map Node.reset ++ ((Node.Sequence rest 0).tick bb).2.1.children) 0 := by
  have h := Sequence.seq_run_before rest before bb
  rw [Node.tick_Sequence, Node.tick_Sequence, Sequence.seq_run_take_drop]
  simpa using h

/-- A Selector whose `activeChild` is `before.length` ticks as the Selector of its
children from `activeChild` on does from its first child; the children before are
carried along untouched (`Running`) or reset (terminal status). -/
theorem Selector.sel_tick_append (before rest : List (Node σ)) (bb : σ) :
    ((Node.Selector (before ++ rest) before.length).tick bb).1
        = ((Node.Selector rest 0).tick bb).1 ∧
    ((Node.Selector (before ++ rest) before.length).tick bb).2.2
        = ((Node.Selector rest 0).tick bb).2.2 ∧
    ((Node.Selector (before ++ rest) before.length).tick bb).2.1
        = if ((Node.Selector rest 0).tick bb).1 = Status.Running then
            Node.Selector (before ++ ((Node.Selector rest 0).tick bb).2.1.children)
              (before.length + ((Node.Selector rest 0).tick bb).2.1.activeChild)
          else
            Node.Selector
              (before.map Node.reset ++ ((Node.Selector rest 0).tick bb).2.1.children) 0 := by
  have h := Selector.sel_run_before rest before bb
  rw [Node.tick_Selector, Node.tick_Selector, Selector.sel_run_take_drop]
  simpa using h

/-- A composite that returns a terminal status is left as `reset()` leaves it. -/
theorem Node.tick_terminal (n : Node σ) (bb : σ) (hn : n.isComposite = true)
    (h : (n.tick bb).1 ≠ Status.Running) : (n.tick bb).2.1 = n.reset := by
  cases n with
  | ConditionNode c => simp [Node.isComposite] at hn
  | ActionNode a => simp [Node.isComposite] at hn
  | Sequence children a =>
    rw [Node.tick_Sequence] at h ⊢
    rw [Sequence.seq_run_terminal _ _ _ _ h, Node.reset_Sequence]
    simp
  | Selector children a =>
    rw [Node.tick_Selector] at h ⊢
    rw [Selector.sel_run_terminal _ _ _ _ h, Node.reset_Selector]
    simp

/-! ## The loops as written compute `tick` -/

theorem Sequence.seq_whileLoop_run (rest : List (Node σ)) :
    ∀ (before : List (Node σ)) (bb : σ),
      Sequence.whileLoop (rest.length + 1) (before ++ rest) before.length bb
        = some (Sequence.run before rest 0 bb) := by
  induction rest with
  | nil =>
    intro before bb
    simp [Sequence.whileLoop, Sequence.seq_run_nil]
  | cons child rest ih =>
    intro before bb
    have hlt : before.length < (before ++ child :: rest).length := by simp
    have hget : (before ++ child :: rest)[before.length] = child := by
      rw [List.getElem_append_right (Nat.le_refl _)]
      simp
    have hset : ∀ c : Node σ, (before ++ child :: rest).set before.length c
        = (before ++ [c]) ++ rest := by
      intro c
      simp [List.set_append]
    have ih' := ih (before ++ [(child.tick bb).2.1]) (child.tick bb).2.2
    rw [List.length_append, List.length_singleton] at ih'
    rw [Sequence.seq_run_zero, List.length_cons, Sequence.whileLoop, dif_pos hlt]
    simp only [hget, hset]
    by_cases h1 : (child.tick bb).1 = Status.Running
    · simp [h1]
    · by_cases h2 : (child.tick bb).1 = Status.Failure
      · simp [h2]
      · simp only [if_neg h1, if_neg h2]
        exact ih'

theorem Selector.sel_whileLoop_run (rest : List (Node σ)) :
    ∀ (before : List (Node σ)) (bb : σ),
      Selector.whileLoop (rest.length + 1) (before ++ rest) before.length bb
        = some (Selector.run before rest 0 bb) := by
  induction rest with
  | nil =>
    intro before bb
    simp [Selector.whileLoop, Selector.sel_run_nil]
  | cons child rest ih =>
    intro before bb
    have hlt : before.length < (before ++ child :: rest).length := by simp
    have hget : (before ++ child :: rest)[before.length] = child := by
      rw [List.getElem_append_right (Nat.le_refl _)]
      simp
    have hset : ∀ c : Node σ, (before ++ child :: rest).set before.length c
        = (before ++ [c]) ++ rest := by
      intro c
      simp [List.set_append]
    have ih' := ih (before ++ [(child.tick bb).2.1]) (child.tick bb).2.2
    rw [List.length_append, List.length_singleton] at ih'
    rw [Selector.sel_run_zero, List.length_cons, Selector.whileLoop, dif_pos hlt]
    simp only [hget, hset]
    by_cases h1 : (child.tick bb).1 = Status.Running
    · simp [h1]
    · by_cases h2 : (child.tick bb).1 = Status.Success
      · simp [h2]
      · simp only [if_neg h1, if_neg h2]
        exact ih'

/-- The loop of `Sequence::tick` as written ends within `children.size() - activeChild + 1`
evaluations of its condition and returns what `Node.tick` returns. -/
theorem Sequence.seq_whileLoop_eq_tick (children : List (Node σ)) (activeChild : Nat) (bb : σ) :
    Sequence.whileLoop (children.length - activeChild + 1) children activeChild bb
      = some ((Node.Sequence children activeChild).tick bb) := by
  rw [Node.tick_Sequence, Sequence.seq_run_take_drop, List.nil_append]
  by_cases h : activeChild ≤ children.length
  · have := Sequence.seq_whileLoop_run (children.drop activeChild) (children.take activeChild) bb
    rw [List.take_append_drop, List.length_drop, List.length_take,
      Nat.min_eq_left h] at this
    exact this
  · have h' : children.length < activeChild := Nat.lt_of_not_le h
    rw [List.drop_of_length_le (Nat.le_of_lt h'), List.take_of_length_le (Nat.le_of_lt h'),
      Sequence.whileLoop, dif_neg (Nat.not_lt_of_gt h'), Sequence.seq_run_nil]
    simp [Node.reset_Sequence]

/-- The loop of `Selector::tick` as written ends within `children.size() - activeChild + 1`
evaluations of its condition and returns what `Node.tick` returns. -/
theorem Selector.sel_whileLoop_eq_tick (children : List (Node σ)) (activeChild : Nat) (bb : σ) :
    Selector.whileLoop (children.length - activeChild + 1) children activeChild bb
      = some ((Node.Selector children activeChild).tick bb) := by
  rw [Node.tick_Selector, Selector.sel_run_take_drop, List.nil_append]
  by_cases h : activeChild ≤ children.length
  · have := Selector.sel_whileLoop_run (children.drop activeChild) (children.take activeChild) bb
    rw [List.take_append_drop, List.length_drop, List.length_take,
      Nat.min_eq_left h] at this
    exact this
  · have h' : children.length < activeChild := Nat.lt_of_not_le h
    rw [List.drop_of_length_le (Nat.le_of_lt h'), List.take_of_length_le (Nat.le_of_lt h'),
      Selector.whileLoop, dif_neg (Nat.not_lt_of_gt h'), Selector.sel_run_nil]
    simp [Node.reset_Selector]

/-! ## Construction and `reset` -/

theorem Composite.foldl_addChild_Sequence (l : List (Node σ)) :
    ∀ (children : List (Node σ)) (activeChild : Nat),
      l.foldl Composite.addChild (Node.Sequence children activeChild)
        = Node.Sequence (children ++ l) activeChild := by
  induction l with
  | nil => intro children activeChild; simp
  | cons c l ih => intro children activeChild; simp [Composite.addChild, ih]

theorem Composite.foldl_addChild_Selector (l : List (Node σ)) :
    ∀ (children : List (Node σ)) (activeChild : Nat),
      l.foldl Composite.addChild (Node.Selector children activeChild)
        = Node.Selector (children ++ l) activeChild := by
  induction l with
  | nil => intro children activeChild; simp
  | cons c l ih => intro children activeChild; simp [Composite.addChild, ih]

theorem Blueprint.build_sequence (children : List (Blueprint σ)) :
    (Blueprint.sequence children).build = Node.Sequence (Blueprint.buildAll children) 0 := by
  simp [Blueprint.build, Composite.foldl_addChild_Sequence]

theorem Blueprint.build_selector (children : List (Blueprint σ)) :
    (Blueprint.selector children).build = Node.Selector (Blueprint.buildAll children) 0 := by
  simp [Blueprint.build, Composite.foldl_addChild_Selector]

mutual
theorem Node.reset_eq_build : ∀ n : Node σ, n.reset = n.tree.build
  | .ConditionNode _ => by simp [Node.reset, Node.tree, Blueprint.build]
  | .ActionNode _ => by simp [Node.reset, Node.tree, Blueprint.build]
  | .Sequence children _ => by
    rw [Node.reset, Node.tree, Blueprint.build_sequence,
      Composite.resetChildren_eq_buildAll children]
  | .Selector children _ => by
    rw [Node.reset, Node.tree, Blueprint.build_selector,
      Composite.resetChildren_eq_buildAll children]
theorem Composite.resetChildren_eq_buildAll : ∀ l : List (Node σ),
    Composite.resetChildren l = Blueprint.buildAll (Composite.trees l)
  | [] => by simp [Composite.resetChildren, Composite.trees, Blueprint.buildAll]
  | c :: l => by
    simp [Composite.resetChildren, Composite.trees, Blueprint.buildAll,
      Node.reset_eq_build c, Composite.resetChildren_eq_buildAll l]
end

/-! ## The blackboard -/

namespace Blackboard

theorem find_assign_self (l : List (String × Int)) (key : String) (value : Int) :
    find (assign l key value) key = some value := by
  induction l with
  | nil => simp [assign, find]
  | cons e l ih =>
    obtain ⟨k, v⟩ := e
    by_cases h : k = key
    · simp [assign, find, h]
    · simp [assign, find, h, ih]

theorem find_assign_ne (l : List (String × Int)) (key other : String) (value : Int)
    (h : other ≠ key) : find (assign l key value) other = find l other := by
  induction l with
  | nil => simp [assign, find, Ne.symm h]
  | cons e l ih =>
    obtain ⟨k, v⟩ := e
    by_cases hk : k = key
    · subst hk
      simp [assign, find, Ne.symm h]
    · by_cases ho : k = other
      · subst ho
        simp [assign, find, hk]
      · simp [assign, find, hk, ho, ih]

theorem getInt_setInt_self (bb : Blackboard) (key : String) (value : Int) :
    (bb.setInt key value).getInt key = value := by
  simp [getInt, setInt, find_assign_self]

theorem getInt_setInt_ne (bb : Blackboard) (key other : String) (value : Int)
    (h : other ≠ key) : (bb.setInt key value).getInt other = bb.getInt other := by
  simp [getInt, setInt, find_assign_ne _ _ _ _ h]

theorem getInt_setAll (calls : List (String × Int)) (key : String)
    (h : ∀ call ∈ calls, call.1 ≠ key) :
    ∀ bb : Blackboard, (bb.setAll calls).getInt key = bb.getInt key := by
  induction calls with
  | nil => intro bb; rfl
  | cons c calls ih =>
    intro bb
    have h1 : key ≠ c.1 := fun e => h c (List.mem_cons_self _ _) e.symm
    have h2 := ih (fun call hc => h call (List.mem_cons_of_mem _ hc)) (bb.setInt c.1 c.2)
    simp only [setAll, List.foldl_cons] at h2 ⊢
    rw [h2, getInt_setInt_ne _ _ _ _ h1]

end Blackboard

/-! ## The end-to-end scenario, tick by tick -/

theorem Scenario.build_tree :
    Scenario.tree.build
      = Node.Selector [.ConditionNode (fun bb => (false, bb)),
          .Sequence [.ConditionNode (fun bb => (true, bb)), .ActionNode Scenario.action] 0] 0 := rfl

theorem Scenario.tick_fresh_running (bb : Blackboard) (h : bb.getInt "count" < 2) :
    Scenario.tree.build.tick bb
      = (Status.Running, Scenario.waiting, bb.setInt "count" (bb.getInt "count" + 1)) := by
  rw [Scenario.build_tree]
  simp [Node.tick, Selector.run, Sequence.run, Scenario.action, Scenario.waiting, h]

theorem Scenario.tick_waiting_running (bb : Blackboard) (h : bb.getInt "count" < 2) :
    Scenario.waiting.tick bb
      = (Status.Running, Scenario.waiting, bb.setInt "count" (bb.getInt "count" + 1)) := by
  simp [Node.tick, Selector.run, Sequence.run, Scenario.action, Scenario.waiting, h]

theorem Scenario.tick_waiting_success (bb : Blackboard) (h : ¬ bb.getInt "count" < 2) :
    Scenario.waiting.tick bb = (Status.Success, Scenario.tree.build, bb.setInt "count" 0) := by
  rw [Scenario.build_tree]
  simp [Node.tick, Selector.run, Sequence.run, Scenario.action, Scenario.waiting, h,
    Node.reset, Composite.resetChildren]

theorem tickTimes_add (a : Nat) : ∀ (b : Nat) (n : Node σ) (bb : σ),
    tickTimes (a + b) n bb
      = ((tickTimes a n bb).1 ++ (tickTimes b (tickTimes a n bb).2.1 (tickTimes a n bb).2.2).1,
          (tickTimes b (tickTimes a n bb).2.1 (tickTimes a n bb).2.2).2) := by
  induction a with
  | zero => intro b n bb; simp [tickTimes]
  | succ a ih =>
    intro b n bb
    rw [show a + 1 + b = (a + b) + 1 by omega]
    simp [tickTimes, ih]

theorem Scenario.three_ticks (bb : Blackboard) (h : bb.getInt "count" = 0) :
    tickTimes 3 Scenario.tree.build bb
      = ([Status.Running, Status.Running, Status.Success], Scenario.tree.build,
          ((bb.setInt "count" 1).setInt "count" 2).setInt "count" 0) := by
  have h1 := Scenario.tick_fresh_running bb (by rw [h]; decide)
  rw [h] at h1
  have h2 := Scenario.tick_waiting_running (bb.setInt "count" (0 + 1))
    (by rw [Blackboard.getInt_setInt_self]; decide)
  rw [Blackboard.getInt_setInt_self] at h2
  have h3 := Scenario.tick_waiting_success ((bb.setInt "count" (0 + 1)).setInt "count" (0 + 1 + 1))
    (by rw [Blackboard.getInt_setInt_self]; decide)
  simp only [tickTimes, h1, h2, h3]
  rfl

/-! ## The claims -/

/-- Claim C1: a Sequence, started at any `activeChild`, whose children from `activeChild`
on all return `Success` when ticked in order, each on the blackboard left by the one
before, returns `Success`, has `activeChild = 0` afterwards, and leaves the blackboard
obtained by ticking those children one after the other within the one call. -/
theorem Sequence.tick_all_success (children : List (Node Blackboard)) (activeChild : Nat)
    (bb : Blackboard) (h : allReturn Status.Success (children.drop activeChild) bb) :
    ((Node.Sequence children activeChild).tick bb).1 = Status.Success ∧
    ((Node.Sequence children activeChild).tick bb).2.1.activeChild = 0 ∧
    ((Node.Sequence children activeChild).tick bb).2.2
      = tickAll (children.drop activeChild) bb := by
  have h1 := Sequence.run_allSuccess (children.drop activeChild)
    ([] ++ children.take activeChild) [] bb h
  rw [List.append_nil] at h1
  rw [Node.tick_Sequence, Sequence.seq_run_take_drop, h1, Sequence.seq_run_nil]
  simp [Node.reset_Sequence, Node.activeChild]

theorem Sequence.tick_all_success_witness :
    allReturn Status.Success (List.drop 1 Sample.failMarkTest) Blackboard.empty ∧
    ((Node.Sequence Sample.failMarkTest 1).tick Blackboard.empty).1 = Status.Success ∧
    ((Node.Sequence Sample.failMarkTest 1).tick Blackboard.empty).2.1.activeChild = 0 ∧
    ((Node.Sequence Sample.failMarkTest 1).tick Blackboard.empty).2.2
      = tickAll (List.drop 1 Sample.failMarkTest) Blackboard.empty :=
  ⟨by decide, Sequence.tick_all_success Sample.failMarkTest 1 Blackboard.empty (by decide)⟩

/-- Claim C2: when a Sequence's tick reaches the child at position `k` (the children from
`activeChild` up to `k` have returned `Success`) and that child returns `Failure`, the
Sequence returns `Failure`, it is left as `reset()` leaves it (its `activeChild` and that
of every composite below it are 0), and the blackboard is the one left by child `k`:
no later child is ticked. -/
theorem Sequence.tick_failure (children : List (Node Blackboard)) (activeChild k : Nat)
    (bb : Blackboard) (hak : activeChild ≤ k) (hk : k < children.length)
    (hbefore : allReturn Status.Success
      ((children.drop activeChild).take (k - activeChild)) bb)
    (hfail : (children[k].tick
      (tickAll ((children.drop activeChild).take (k - activeChild)) bb)).1 = Status.Failure) :
    ((Node.Sequence children activeChild).tick bb).1 = Status.Failure ∧
    ((Node.Sequence children activeChild).tick bb).2.1
      = (Node.Sequence children activeChild).reset ∧
    ((Node.Sequence children activeChild).tick bb).2.1.activeChild = 0 ∧
    ((Node.Sequence children activeChild).tick bb).2.1.allZero = true ∧
    ((Node.Sequence children activeChild).tick bb).2.2
      = (children[k].tick
          (tickAll ((children.drop activeChild).take (k - activeChild)) bb)).2.2 := by
  have hr := Sequence.seq_tick_reach children activeChild k bb hak hk hbefore
  rw [Sequence.seq_run_zero, if_neg (by simp [hfail]), if_pos hfail] at hr
  have hs : ((Node.Sequence children activeChild).tick bb).1 = Status.Failure := by rw [hr]
  have ht := Node.tick_terminal (Node.Sequence children activeChild) bb rfl (by simp [hs])
  refine ⟨hs, ht, ?_, ?_, by rw [hr]⟩
  · rw [ht, Node.reset_Sequence]; rfl
  · rw [ht]; exact Node.reset_allZero _

theorem Sequence.tick_failure_witness :
    allReturn Status.Success ((List.drop 0 Sample.markFailMark).take (1 - 0))
      Blackboard.empty ∧
    (Sample.markFailMark[1].tick
      (tickAll ((List.drop 0 Sample.markFailMark).take (1 - 0)) Blackboard.empty)).1
        = Status.Failure ∧
    ((Node.Sequence Sample.markFailMark 0).tick Blackboard.empty).1 = Status.Failure ∧
    ((Node.Sequence Sample.markFailMark 0).tick Blackboard.empty).2.1
      = (Node.Sequence Sample.markFailMark 0).reset ∧
    ((Node.Sequence Sample.markFailMark 0).tick Blackboard.empty).2.1.activeChild = 0 ∧
    ((Node.Sequence Sample.markFailMark 0).tick Blackboard.empty).2.1.allZero = true ∧
    ((Node.Sequence Sample.markFailMark 0).tick Blackboard.empty).2.2
      = (Sample.markFailMark[1].tick
          (tickAll ((List.drop 0 Sample.markFailMark).take (1 - 0)) Blackboard.empty)).2.2 :=
  ⟨by decide, by decide,
    Sequence.tick_failure Sample.markFailMark 0 1 Blackboard.empty (by decide) (by decide)
      (by decide) (by decide)⟩

/-- Claim C4: a Selector whose children from `activeChild` on all return `Failure` returns
`Failure`; a Selector whose tick reaches the child at position `k` (the children from
`activeChild` up to `k` have returned `Failure`, none `Running`) and gets `Success` from
it returns `Success` with the blackboard left by child `k`, so no later child is ticked.
In both cases `activeChild` is 0 afterwards. -/
theorem Selector.tick_failure_or_success (children : List (Node Blackboard))
    (activeChild : Nat) (bb : Blackboard) :
    (allReturn Status.Failure (children.drop activeChild) bb →
      ((Node.Selector children activeChild).tick bb).1 = Status.Failure ∧
      ((Node.Selector children activeChild).tick bb).2.1.activeChild = 0 ∧
      ((Node.Selector children activeChild).tick bb).2.2
        = tickAll (children.drop activeChild) bb) ∧
    (∀ (k : Nat) (_ : activeChild ≤ k) (hk : k < children.length),
      allReturn Status.Failure ((children.drop activeChild).take (k - activeChild)) bb →
      (children[k].tick
        (tickAll ((children.drop activeChild).take (k - activeChild)) bb)).1
          = Status.Success →
      ((Node.Selector children activeChild).tick bb).1 = Status.Success ∧
      ((Node.Selector children activeChild).tick bb).2.1.activeChild = 0 ∧
      ((Node.Selector children activeChild).tick bb).2.2
        = (children[k].tick
            (tickAll ((children.drop activeChild).take (k - activeChild)) bb)).2.2) := by
  constructor
  · intro h
    have h1 := Selector.run_allFailure (children.drop activeChild)
      ([] ++ children.take activeChild) [] bb h
    rw [List.append_nil] at h1
    rw [Node.tick_Selector, Selector.sel_run_take_drop, h1, Selector.sel_run_nil]
    simp [Node.reset_Selector, Node.activeChild]
  · intro k hak hk hbefore hsucc
    have hr := Selector.sel_tick_reach children activeChild k bb hak hk hbefore
    rw [Selector.sel_run_zero, if_neg (by simp [hsucc]), if_pos hsucc] at hr
    rw [hr]
    simp [Node.reset_Selector, Node.activeChild]

theorem Selector.tick_failure_or_success_witness :
    (allReturn Status.Failure (List.drop 0 Sample.failFail) Blackboard.empty ∧
      ((Node.Selector Sample.failFail 0).tick Blackboard.empty).1 = Status.Failure ∧
      ((Node.Selector Sample.failFail 0).tick Blackboard.empty).2.1.activeChild = 0 ∧
      ((Node.Selector Sample.failFail 0).tick Blackboard.empty).2.2
        = tickAll (List.drop 0 Sample.failFail) Blackboard.empty) ∧
    (allReturn Status.Failure ((List.drop 0 Sample.failMarkMark).take (1 - 0))
        Blackboard.empty ∧
      (Sample.failMarkMark[1].tick
        (tickAll ((List.drop 0 Sample.failMarkMark).take (1 - 0)) Blackboard.empty)).1
          = Status.Success ∧
      ((Node.Selector Sample.failMarkMark 0).tick Blackboard.empty).1 = Status.Success ∧
      ((Node.Selector Sample.failMarkMark 0).tick Blackboard.empty).2.1.activeChild = 0 ∧
      ((Node.Selector Sample.failMarkMark 0).tick Blackboard.empty).2.2
        = (Sample.failMarkMark[1].tick
            (tickAll ((List.drop 0 Sample.failMarkMark).take (1 - 0))
              Blackboard.empty)).2.2) :=
  ⟨⟨by decide,
      (Selector.tick_failure_or_success Sample.failFail 0 Blackboard.empty).1 (by decide)⟩,
    ⟨by decide, by decide,
      (Selector.tick_failure_or_success Sample.failMarkMark 0 Blackboard.empty).2 1
        (by decide) (by decide) (by decide) (by decide)⟩⟩

/-- Claim C5: on every blackboard, the tick of a Sequence without children returns
`Success` and the tick of a Selector without children returns `Failure`; the blackboard
is unchanged and the composite is left without children and with `activeChild = 0`. -/
theorem Composite.tick_no_children (bb : Blackboard) :
    (Node.Sequence [] 0).tick bb = (Status.Success, Node.Sequence [] 0, bb) ∧
    (Node.Selector [] 0).tick bb = (Status.Failure, Node.Selector [] 0, bb) := by
  constructor
  · rw [Node.tick_Sequence, Sequence.seq_run_nil, Node.reset_Sequence]; rfl
  · rw [Node.tick_Selector, Selector.sel_run_nil, Node.reset_Selector]; rfl

/-- Claim C10: whenever the tick of a Sequence or Selector, in any state and on any
blackboard, returns `Success` or `Failure`, its `activeChild` is 0 when the call returns
and so is that of every composite in its subtree. -/
theorem Composite.tick_terminal_allZero (n : Node Blackboard) (bb : Blackboard)
    (hn : n.isComposite = true)
    (h : (n.tick bb).1 = Status.Success ∨ (n.tick bb).1 = Status.Failure) :
    (n.tick bb).2.1.activeChild = 0 ∧ (n.tick bb).2.1.allZero = true := by
  have ht : (n.tick bb).2.1 = n.reset :=
    Node.tick_terminal n bb hn (by rcases h with h | h <;> simp [h])
  rw [ht]
  refine ⟨?_, Node.reset_allZero n⟩
  cases n with
  | ConditionNode c => rfl
  | ActionNode a => rfl
  | Sequence children a => rw [Node.reset_Sequence]; rfl
  | Selector children a => rw [Node.reset_Selector]; rfl

theorem Composite.tick_terminal_allZero_witness :
    (Node.Selector [Node.Sequence Sample.markFailMark 1,
        Node.Sequence Sample.failMarkTest 1] 0).isComposite = true ∧
    (((Node.Selector [Node.Sequence Sample.markFailMark 1,
        Node.Sequence Sample.failMarkTest 1] 0).tick Blackboard.empty).1 = Status.Success ∨
      ((Node.Selector [Node.Sequence Sample.markFailMark 1,
        Node.Sequence Sample.failMarkTest 1] 0).tick Blackboard.empty).1 = Status.Failure) ∧
    ((Node.Selector [Node.Sequence Sample.markFailMark 1,
        Node.Sequence Sample.failMarkTest 1] 0).tick Blackboard.empty).2.1.activeChild = 0 ∧
    ((Node.Selector [Node.Sequence Sample.markFailMark 1,
        Node.Sequence Sample.failMarkTest 1] 0).tick Blackboard.empty).2.1.allZero = true :=
  ⟨by decide, by decide,
    Composite.tick_terminal_allZero _ Blackboard.empty (by decide) (by decide)⟩

/-- Claim C3: when the tick of a Sequence (of a Selector) reaches the child at position `k`
(the children from `activeChild` up to `k` have returned `Success`, resp. `Failure`) and
that child returns `Running`, the composite returns `Running` with `activeChild = k` and
nothing reset: the children before `activeChild` and after `k` are untouched, the ticked
ones are as their own tick left them.  A later tick of a composite in that state, whatever
its first `k` children `others` are and on any blackboard `bb2`, has the status and
blackboard of the composite made of the children from `k` on ticked from its first child,
which is child `k`; the first `k` children are not ticked: they are carried along untouched
(`Running`) or reset (terminal status). -/
theorem Composite.tick_running_resumes (children : List (Node Blackboard))
    (activeChild k : Nat) (bb : Blackboard) (hak : activeChild ≤ k) (hk : k < children.length)
    (mid : List (Node Blackboard)) (hmid : mid = (children.drop activeChild).take (k - activeChild))
    (r : Status × Node Blackboard × Blackboard) (hr : r = children[k].tick (tickAll mid bb))
    (hrun : r.1 = Status.Running) :
    (allReturn Status.Success mid bb →
      (Node.Sequence children activeChild).tick bb
        = (Status.Running,
            Node.Sequence
              ((children.take activeChild ++ tickedAll mid bb) ++ r.2.1 :: children.drop (k + 1)) k,
            r.2.2) ∧
      (children.take activeChild ++ tickedAll mid bb).length = k ∧
      ∀ (others : List (Node Blackboard)) (bb2 : Blackboard), others.length = k →
        ((Node.Sequence (others ++ r.2.1 :: children.drop (k + 1)) k).tick bb2).1
          = ((Node.Sequence (r.2.1 :: children.drop (k + 1)) 0).tick bb2).1 ∧
        ((Node.Sequence (others ++ r.2.1 :: children.drop (k + 1)) k).tick bb2).2.2
          = ((Node.Sequence (r.2.1 :: children.drop (k + 1)) 0).tick bb2).2.2 ∧
        ((Node.Sequence (others ++ r.2.1 :: children.drop (k + 1)) k).tick bb2).2.1
          = if ((Node.Sequence (r.2.1 :: children.drop (k + 1)) 0).tick bb2).1
                = Status.Running then
              Node.Sequence
                (others
                  ++ ((Node.Sequence (r.2.1 :: children.drop (k + 1)) 0).tick bb2).2.1.children)
                (k + ((Node.Sequence (r.2.1 :: children.drop (k + 1)) 0).tick bb2).2.1.activeChild)
            else
              Node.Sequence
                (others.map Node.reset
                  ++ ((Node.Sequence (r.2.1 :: children.drop (k + 1)) 0).tick bb2).2.1.children)
                0) ∧
    (allReturn Status.Failure mid bb →
      (Node.Selector children activeChild).tick bb
        = (Status.Running,
            Node.Selector
              ((children.take activeChild ++ tickedAll mid bb) ++ r.2.1 :: children.drop (k + 1)) k,
            r.2.2) ∧
      (children.take activeChild ++ tickedAll mid bb).length = k ∧
      ∀ (others : List (Node Blackboard)) (bb2 : Blackboard), others.length = k →
        ((Node.Selector (others ++ r.2.1 :: children.drop (k + 1)) k).tick bb2).1
          = ((Node.Selector (r.2.1 :: children.drop (k + 1)) 0).tick bb2).1 ∧
        ((Node.Selector (others ++ r.2.1 :: children.drop (k + 1)) k).tick bb2).2.2
          = ((Node.Selector (r.2.1 :: children.drop (k + 1)) 0).tick bb2).2.2 ∧
        ((Node.Selector (others ++ r.2.1 :: children.drop (k + 1)) k).tick bb2).2.1
          = if ((Node.Selector (r.2.1 :: children.drop (k + 1)) 0).tick bb2).1
                = Status.Running then
              Node.Selector
                (others
                  ++ ((Node.Selector (r.2.1 :: children.drop (k + 1)) 0).tick bb2).2.1.children)
                (k + ((Node.Selector (r.2.1 :: children.drop (k + 1)) 0).tick bb2).2.1.activeChild)
            else
              Node.Selector
                (others.map Node.reset
                  ++ ((Node.Selector (r.2.1 :: children.drop (k + 1)) 0).tick bb2).2.1.children)
                0) := by
  have hlen : (children.take activeChild ++ tickedAll mid bb).length = k := by
    rw [List.length_append, tickedAll_length, hmid]
    simp
    omega
  subst hmid
  constructor
  · intro hbefore
    refine ⟨?_, hlen, ?_⟩
    · rw [Sequence.seq_tick_reach children activeChild k bb hak hk hbefore, Sequence.seq_run_zero,
        ← hr, if_pos hrun, hlen]
    · intro others bb2 ho
      have := Sequence.seq_tick_append others (r.2.1 :: children.drop (k + 1)) bb2
      rw [ho] at this
      exact this
  · intro hbefore
    refine ⟨?_, hlen, ?_⟩
    · rw [Selector.sel_tick_reach children activeChild k bb hak hk hbefore, Selector.sel_run_zero,
        ← hr, if_pos hrun, hlen]
    · intro others bb2 ho
      have := Selector.sel_tick_append others (r.2.1 :: children.drop (k + 1)) bb2
      rw [ho] at this
      exact this

theorem Composite.tick_running_resumes_witness :
    (allReturn Status.Success ((List.drop 0 Sample.markWaitMark).take (1 - 0))
        Blackboard.empty ∧
      (Sample.markWaitMark[1].tick
        (tickAll ((List.drop 0 Sample.markWaitMark).take (1 - 0)) Blackboard.empty)).1
          = Status.Running ∧
      (Node.Sequence Sample.markWaitMark 0).tick Blackboard.empty
        = (Status.Running, Node.Sequence Sample.markWaitMark 1,
            (Blackboard.empty.setInt "a" 1).setInt "b" 1)) ∧
    (allReturn Status.Failure ((List.drop 0 Sample.failWaitMark).take (1 - 0))
        Blackboard.empty ∧
      (Sample.failWaitMark[1].tick
        (tickAll ((List.drop 0 Sample.failWaitMark).take (1 - 0)) Blackboard.empty)).1
          = Status.Running ∧
      (Node.Selector Sample.failWaitMark 0).tick Blackboard.empty
        = (Status.Running, Node.Selector Sample.failWaitMark 1,
            (Blackboard.empty.setInt "a" 1).setInt "b" 1)) :=
  ⟨⟨by decide, by decide,
      ((Composite.tick_running_resumes Sample.markWaitMark 0 1 Blackboard.empty (by decide)
        (by decide) _ rfl _ rfl (by decide)).1 (by decide)).1⟩,
    ⟨by decide, by decide,
      ((Composite.tick_running_resumes Sample.failWaitMark 0 1 Blackboard.empty (by decide)
        (by decide) _ rfl _ rfl (by decide)).2 (by decide)).1⟩⟩

/-- Claim C6: `reset()` on a node in any state sets its `activeChild` and that of every
composite below it to 0; the node it leaves is the node as construction left it, so the
next tick on any blackboard returns the status and the blackboard that the tick of the
freshly constructed tree returns; `reset()` on a ConditionNode or an ActionNode changes
nothing. -/
theorem Composite.reset_is_fresh (n : Node Blackboard) :
    n.reset.activeChild = 0 ∧
    n.reset.allZero = true ∧
    n.reset = n.tree.build ∧
    (∀ bb : Blackboard,
      (n.reset.tick bb).1 = (n.tree.build.tick bb).1 ∧
      (n.reset.tick bb).2.2 = (n.tree.build.tick bb).2.2) ∧
    (∀ cond : Blackboard → Bool × Blackboard,
      (Node.ConditionNode cond).reset = Node.ConditionNode cond) ∧
    (∀ act : Blackboard → Status × Blackboard,
      (Node.ActionNode act).reset = Node.ActionNode act) := by
  refine ⟨?_, Node.reset_allZero n, Node.reset_eq_build n, ?_, fun _ => rfl, fun _ => rfl⟩
  · cases n <;> simp [Node.reset, Node.activeChild]
  · intro bb
    rw [Node.reset_eq_build n]
    exact ⟨rfl, rfl⟩

/-- Claim C7: on a new blackboard, and on a blackboard on which `key` was never set
(whatever was set under other keys), `getInt(key)` returns 0; `getInt` is a total function
of the blackboard and the key and returns nothing but the value. -/
theorem Blackboard.getInt_never_set (calls : List (String × Int)) (key : String)
    (h : ∀ call ∈ calls, call.1 ≠ key) :
    Blackboard.empty.getInt key = 0 ∧ (Blackboard.empty.setAll calls).getInt key = 0 := by
  have h0 : Blackboard.empty.getInt key = 0 := by
    simp [Blackboard.getInt, Blackboard.empty, Blackboard.find]
  exact ⟨h0, by rw [Blackboard.getInt_setAll calls key h, h0]⟩

theorem Blackboard.getInt_never_set_witness :
    (∀ call ∈ [("health", (100 : Int)), ("playerDistance", 15)], call.1 ≠ "chaseProgress") ∧
    Blackboard.empty.getInt "chaseProgress" = 0 ∧
    (Blackboard.empty.setAll [("health", 100), ("playerDistance", 15)]).getInt "chaseProgress"
      = 0 :=
  ⟨by decide,
    Blackboard.getInt_never_set [("health", 100), ("playerDistance", 15)] "chaseProgress"
      (by decide)⟩

/-- Claim C8: after `setInt(key, value)` on any blackboard, `getInt(key)` returns `value`,
also when `key` was set before, and for every other key `getInt` returns what it
returned before the `setInt`. -/
theorem Blackboard.getInt_after_setInt (bb : Blackboard) (key other : String) (value : Int) :
    (bb.setInt key value).getInt key = value ∧
    (other ≠ key → (bb.setInt key value).getInt other = bb.getInt other) :=
  ⟨Blackboard.getInt_setInt_self bb key value, Blackboard.getInt_setInt_ne bb key other value⟩

theorem Blackboard.getInt_after_setInt_witness :
    (((Blackboard.empty.setInt "health" 100).setInt "playerDistance" 15).setInt "health" 20).getInt
        "health" = 20 ∧
    "playerDistance" ≠ "health" ∧
    (((Blackboard.empty.setInt "health" 100).setInt "playerDistance" 15).setInt "health" 20).getInt
        "playerDistance"
      = ((Blackboard.empty.setInt "health" 100).setInt "playerDistance" 15).getInt
        "playerDistance" :=
  ⟨(Blackboard.getInt_after_setInt
      ((Blackboard.empty.setInt "health" 100).setInt "playerDistance" 15)
      "health" "playerDistance" 20).1,
    by decide,
    (Blackboard.getInt_after_setInt
      ((Blackboard.empty.setInt "health" 100).setInt "playerDistance" 15)
      "health" "playerDistance" 20).2 (by decide)⟩

/-- Claim C9: the freshly built tree `Selector[Condition(false), Sequence[Condition(true),
Action A]]`, ticked on a blackboard whose counter is 0, returns `Running`, `Running`,
`Success` on its first three ticks; while `A` runs, root and inner Sequence stand at their
second child; after the third tick the tree is the freshly built one again (every
`activeChild` is 0) and the counter is cleared; ticks 4 to 6 then return `Running`,
`Running`, `Success` again and leave the freshly built tree. -/
theorem Scenario.ticks_running_running_success (bb : Blackboard)
    (h : bb.getInt "count" = 0) :
    (tickTimes 3 Scenario.tree.build bb).1
      = [Status.Running, Status.Running, Status.Success] ∧
    (tickTimes 1 Scenario.tree.build bb).2.1 = Scenario.waiting ∧
    (tickTimes 2 Scenario.tree.build bb).2.1 = Scenario.waiting ∧
    (tickTimes 3 Scenario.tree.build bb).2.1 = Scenario.tree.build ∧
    (tickTimes 3 Scenario.tree.build bb).2.1.allZero = true ∧
    (tickTimes 3 Scenario.tree.build bb).2.2.getInt "count" = 0 ∧
    (tickTimes 6 Scenario.tree.build bb).1
      = [Status.Running, Status.Running, Status.Success,
          Status.Running, Status.Running, Status.Success] ∧
    (tickTimes 6 Scenario.tree.build bb).2.1 = Scenario.tree.build ∧
    (tickTimes 6 Scenario.tree.build bb).2.1.allZero = true := by
  have h3 := Scenario.three_ticks bb h
  have h3' := Scenario.three_ticks (((bb.setInt "count" 1).setInt "count" 2).setInt "count" 0)
    (Blackboard.getInt_setInt_self _ _ _)
  have h6 := tickTimes_add 3 3 Scenario.tree.build bb
  rw [h3] at h6
  simp only [h3'] at h6
  have h1 := Scenario.tick_fresh_running bb (by rw [h]; decide)
  rw [h] at h1
  have h2 := Scenario.tick_waiting_running (bb.setInt "count" 1)
    (by rw [Blackboard.getInt_setInt_self]; decide)
  simp only [zero_add] at h1
  have hz : (Scenario.tree.build).allZero = true := by decide
  refine ⟨by rw [h3], by simp [tickTimes, h1], by simp [tickTimes, h1, h2], by rw [h3],
    by rw [h3]; exact hz, by rw [h3]; exact Blackboard.getInt_setInt_self _ _ _,
    by rw [show (6 : Nat) = 3 + 3 from rfl, h6]; rfl,
    by rw [show (6 : Nat) = 3 + 3 from rfl, h6],
    by rw [show (6 : Nat) = 3 + 3 from rfl, h6]; exact hz⟩

theorem Scenario.ticks_running_running_success_witness :
    Blackboard.empty.getInt "count" = 0 ∧
    (tickTimes 3 Scenario.tree.build Blackboard.empty).1
      = [Status.Running, Status.Running, Status.Success] ∧
    (tickTimes 1 Scenario.tree.build Blackboard.empty).2.1 = Scenario.waiting ∧
    (tickTimes 2 Scenario.tree.build Blackboard.empty).2.1 = Scenario.waiting ∧
    (tickTimes 3 Scenario.tree.build Blackboard.empty).2.1 = Scenario.tree.build ∧
    (tickTimes 3 Scenario.tree.build Blackboard.empty).2.1.allZero = true ∧
    (tickTimes 3 Scenario.tree.build Blackboard.empty).2.2.getInt "count" = 0 ∧
    (tickTimes 6 Scenario.tree.build Blackboard.empty).1
      = [Status.Running, Status.Running, Status.Success,
          Status.Running, Status.Running, Status.Success] ∧
    (tickTimes 6 Scenario.tree.build Blackboard.empty).2.1 = Scenario.tree.build ∧
    (tickTimes 6 Scenario.tree.build Blackboard.empty).2.1.allZero = true :=
  ⟨by decide, Scenario.ticks_running_running_success Blackboard.empty (by decide)⟩

/-! ## The shape of a composite after its tick -/

theorem Sequence.seq_run_shape (rest : List (Node σ)) :
    ∀ (before : List (Node σ)) (skip : Nat) (bb : σ),
      ∃ (cs : List (Node σ)) (k : Nat),
        (Sequence.run before rest skip bb).2.1 = Node.Sequence cs k ∧
        cs.length = before.length + rest.length ∧
        ((Sequence.run before rest skip bb).1 = Status.Running → k < cs.length) ∧
        ((Sequence.run before rest skip bb).1 ≠ Status.Running → k = 0) := by
  induction rest with
  | nil =>
    intro before skip bb
    refine ⟨before.map Node.reset, 0, ?_, by simp, ?_, fun _ => rfl⟩
    · rw [Sequence.seq_run_nil, Node.reset_Sequence]
    · rw [Sequence.seq_run_nil]; simp
  | cons child rest ih =>
    intro before skip bb
    cases skip with
    | succ k =>
      rw [Sequence.seq_run_skip]
      obtain ⟨cs, j, h1, h2, h3, h4⟩ := ih (before ++ [child]) k bb
      exact ⟨cs, j, h1, by simp [h2]; omega, h3, h4⟩
    | zero =>
      rw [Sequence.seq_run_zero]
      by_cases h1 : (child.tick bb).1 = Status.Running
      · rw [if_pos h1]
        exact ⟨_, _, rfl, by simp, fun _ => by simp, fun h => absurd rfl h⟩
      · by_cases h2 : (child.tick bb).1 = Status.Failure
        · rw [if_neg h1, if_pos h2]
          exact ⟨_, 0, Node.reset_Sequence _ before.length, by simp, fun h => by simp at h,
            fun _ => rfl⟩
        · rw [if_neg h1, if_neg h2]
          obtain ⟨cs, j, e1, e2, e3, e4⟩ :=
            ih (before ++ [(child.tick bb).2.1]) 0 (child.tick bb).2.2
          exact ⟨cs, j, e1, by simp [e2]; omega, e3, e4⟩

theorem Selector.sel_run_shape (rest : List (Node σ)) :
    ∀ (before : List (Node σ)) (skip : Nat) (bb : σ),
      ∃ (cs : List (Node σ)) (k : Nat),
        (Selector.run before rest skip bb).2.1 = Node.Selector cs k ∧
        cs.length = before.length + rest.length ∧
        ((Selector.run before rest skip bb).1 = Status.Running → k < cs.length) ∧
        ((Selector.run before rest skip bb).1 ≠ Status.Running → k = 0) := by
  induction rest with
  | nil =>
    intro before skip bb
    refine ⟨before.map Node.reset, 0, ?_, by simp, ?_, fun _ => rfl⟩
    · rw [Selector.sel_run_nil, Node.reset_Selector]
    · rw [Selector.sel_run_nil]; simp
  | cons child rest ih =>
    intro before skip bb
    cases skip with
    | succ k =>
      rw [Selector.sel_run_skip]
      obtain ⟨cs, j, h1, h2, h3, h4⟩ := ih (before ++ [child]) k bb
      exact ⟨cs, j, h1, by simp [h2]; omega, h3, h4⟩
    | zero =>
      rw [Selector.sel_run_zero]
      by_cases h1 : (child.tick bb).1 = Status.Running
      · rw [if_pos h1]
        exact ⟨_, _, rfl, by simp, fun _ => by simp, fun h => absurd rfl h⟩
      · by_cases h2 : (child.tick bb).1 = Status.Success
        · rw [if_neg h1, if_pos h2]
          exact ⟨_, 0, Node.reset_Selector _ before.length, by simp, fun h => by simp at h,
            fun _ => rfl⟩
        · rw [if_neg h1, if_neg h2]
          obtain ⟨cs, j, e1, e2, e3, e4⟩ :=
            ih (before ++ [(child.tick bb).2.1]) 0 (child.tick bb).2.2
          exact ⟨cs, j, e1, by simp [e2]; omega, e3, e4⟩

/-! ## The claims, continued -/

/-- Claim C11, as stated, fails: a Sequence without children has `activeChild = 0` after
its tick, which is its child count. -/
theorem Composite.tick_activeChild_eq_count_empty :
    ¬ (((Node.Sequence ([] : List (Node Blackboard)) 0).tick Blackboard.empty).2.1.activeChild
        ≠ ((Node.Sequence ([] : List (Node Blackboard)) 0).tick
            Blackboard.empty).2.1.children.length) := by
  decide

/-- Claim C11, amended: for every Sequence or Selector with at least one child, whatever
its `activeChild`, and every blackboard, the tick leaves the child count as it was and an
`activeChild` smaller than the child count, hence not equal to it. -/
theorem Composite.tick_activeChild_lt_count (children : List (Node Blackboard))
    (activeChild : Nat) (bb : Blackboard) (h : children ≠ []) :
    (((Node.Sequence children activeChild).tick bb).2.1.children.length = children.length ∧
      ((Node.Sequence children activeChild).tick bb).2.1.activeChild < children.length ∧
      ((Node.Sequence children activeChild).tick bb).2.1.activeChild
        ≠ ((Node.Sequence children activeChild).tick bb).2.1.children.length) ∧
    (((Node.Selector children activeChild).tick bb).2.1.children.length = children.length ∧
      ((Node.Selector children activeChild).tick bb).2.1.activeChild < children.length ∧
      ((Node.Selector children activeChild).tick bb).2.1.activeChild
        ≠ ((Node.Selector children activeChild).tick bb).2.1.children.length) := by
  have hpos : 0 < children.length := List.length_pos.mpr h
  constructor
  · obtain ⟨cs, k, h1, h2, h3, h4⟩ := Sequence.seq_run_shape children [] activeChild bb
    rw [Node.tick_Sequence, h1]
    simp only [Node.children, Node.activeChild, List.length_nil, Nat.zero_add] at h2 ⊢
    have hk : k < children.length := by
      by_cases hr : (Sequence.run [] children activeChild bb).1 = Status.Running
      · rw [← h2]; exact h3 hr
      · rw [h4 hr]; exact hpos
    exact ⟨h2, hk, by omega⟩
  · obtain ⟨cs, k, h1, h2, h3, h4⟩ := Selector.sel_run_shape children [] activeChild bb
    rw [Node.tick_Selector, h1]
    simp only [Node.children, Node.activeChild, List.length_nil, Nat.zero_add] at h2 ⊢
    have hk : k < children.length := by
      by_cases hr : (Selector.run [] children activeChild bb).1 = Status.Running
      · rw [← h2]; exact h3 hr
      · rw [h4 hr]; exact hpos
    exact ⟨h2, hk, by omega⟩

theorem Composite.tick_activeChild_lt_count_witness :
    Sample.markWaitMark ≠ [] ∧
    (((Node.Sequence Sample.markWaitMark 0).tick Blackboard.empty).2.1.children.length
        = Sample.markWaitMark.length ∧
      ((Node.Sequence Sample.markWaitMark 0).tick Blackboard.empty).2.1.activeChild
        < Sample.markWaitMark.length ∧
      ((Node.Sequence Sample.markWaitMark 0).tick Blackboard.empty).2.1.activeChild
        ≠ ((Node.Sequence Sample.markWaitMark 0).tick Blackboard.empty).2.1.children.length) ∧
    (((Node.Selector Sample.markWaitMark 0).tick Blackboard.empty).2.1.children.length
        = Sample.markWaitMark.length ∧
      ((Node.Selector Sample.markWaitMark 0).tick Blackboard.empty).2.1.activeChild
        < Sample.markWaitMark.length ∧
      ((Node.Selector Sample.markWaitMark 0).tick Blackboard.empty).2.1.activeChild
        ≠ ((Node.Selector Sample.markWaitMark 0).tick Blackboard.empty).2.1.children.length) :=
  ⟨by simp [Sample.markWaitMark],
    Composite.tick_activeChild_lt_count Sample.markWaitMark 0 Blackboard.empty
      (by simp [Sample.markWaitMark])⟩

/-- Claim C12: the tick of `ConditionNode(p)` on `b` returns `Success` when `p(b)` is true
and `Failure` otherwise, never `Running`; the node after the tick and the node after
`reset()` are the node itself, which holds nothing but `p`. -/
theorem ConditionNode.tick_success_or_failure (p : Blackboard → Bool × Blackboard)
    (b : Blackboard) :
    ((p b).1 = true → ((Node.ConditionNode p).tick b).1 = Status.Success) ∧
    ((p b).1 = false → ((Node.ConditionNode p).tick b).1 = Status.Failure) ∧
    ((Node.ConditionNode p).tick b).1 ≠ Status.Running ∧
    ((Node.ConditionNode p).tick b).2.1 = Node.ConditionNode p ∧
    (Node.ConditionNode p).reset = Node.ConditionNode p := by
  refine ⟨fun h => ?_, fun h => ?_, ?_, ?_, rfl⟩
  · simp [Node.tick, h]
  · simp [Node.tick, h]
  · cases h : (p b).1 <;> simp [Node.tick, h]
  · simp [Node.tick]

theorem ConditionNode.tick_success_or_failure_witness :
    (((fun bb : Blackboard => (decide (bb.getInt "health" < 30), bb))
        (Blackboard.empty.setInt "health" 100)).1 = false) ∧
    ((Node.ConditionNode (fun bb : Blackboard => (decide (bb.getInt "health" < 30), bb))).tick
        (Blackboard.empty.setInt "health" 100)).1 = Status.Failure ∧
    (((fun bb : Blackboard => (decide (bb.getInt "health" < 30), bb))
        (Blackboard.empty.setInt "health" 20)).1 = true) ∧
    ((Node.ConditionNode (fun bb : Blackboard => (decide (bb.getInt "health" < 30), bb))).tick
        (Blackboard.empty.setInt "health" 20)).1 = Status.Success :=
  ⟨by decide,
    (ConditionNode.tick_success_or_failure _ (Blackboard.empty.setInt "health" 100)).2.1
      (by decide),
    by decide,
    (ConditionNode.tick_success_or_failure _ (Blackboard.empty.setInt "health" 20)).1
      (by decide)⟩

/-- Claim C13: `BehaviorTree::tick(bb)` is one `root.tick(bb)`: the root and the
blackboard it leaves are those one tick of the root leaves, and the status the root
returned is not part of what it returns. -/
theorem BehaviorTree.tick_is_root_tick (tree : BehaviorTree Blackboard) (bb : Blackboard) :
    (tree.tick bb).1.root = (tree.root.tick bb).2.1 ∧
    (tree.tick bb).2 = (tree.root.tick bb).2.2 ∧
    ((tree.tick bb).1.root, (tree.tick bb).2) = (tickTimes 1 tree.root bb).2 :=
  ⟨rfl, rfl, rfl⟩

/-! ## Duality of Sequence and Selector -/

theorem Composite.duals_eq_map (l : List (Node σ)) : Composite.duals l = l.map Node.dual := by
  induction l with
  | nil => simp [Composite.duals]
  | cons c l ih => simp [Composite.duals, ih]

theorem Status.swap_eq_running (s : Status) : s.swap = Status.Running ↔ s = Status.Running := by
  cases s <;> simp [Status.swap]

theorem Status.swap_eq_success (s : Status) : s.swap = Status.Success ↔ s = Status.Failure := by
  cases s <;> simp [Status.swap]

theorem Status.swap_eq_failure (s : Status) : s.swap = Status.Failure ↔ s = Status.Success := by
  cases s <;> simp [Status.swap]

mutual
theorem Node.dual_reset : ∀ n : Node σ, n.reset.dual = n.dual.reset
  | .ConditionNode _ => rfl
  | .ActionNode _ => rfl
  | .Sequence children _ => by
    simp [Node.reset, Node.dual, Composite.duals_resetChildren children]
  | .Selector children _ => by
    simp [Node.reset, Node.dual, Composite.duals_resetChildren children]
theorem Composite.duals_resetChildren : ∀ l : List (Node σ),
    Composite.duals (Composite.resetChildren l) = Composite.resetChildren (Composite.duals l)
  | [] => rfl
  | c :: l => by
    simp [Composite.resetChildren, Composite.duals, Node.dual_reset c,
      Composite.duals_resetChildren l]
end

mutual
theorem Node.tick_dual : ∀ (n : Node σ) (bb : σ),
    n.dual.tick bb = ((n.tick bb).1.swap, (n.tick bb).2.1.dual, (n.tick bb).2.2)
  | .ConditionNode cond, bb => by
    cases h : (cond bb).1 <;> simp [Node.dual, Node.tick, h, Status.swap]
  | .ActionNode act, bb => by
    simp [Node.dual, Node.tick]
  | .Sequence children a, bb => by
    have h := Sequence.seq_run_dual children [] a bb
    simpa [Node.dual, Node.tick, Composite.duals] using h
  | .Selector children a, bb => by
    have h := Selector.sel_run_dual children [] a bb
    simpa [Node.dual, Node.tick, Composite.duals] using h
theorem Sequence.seq_run_dual : ∀ (rest before : List (Node σ)) (skip : Nat) (bb : σ),
    Selector.run (Composite.duals before) (Composite.duals rest) skip bb
      = ((Sequence.run before rest skip bb).1.swap, (Sequence.run before rest skip bb).2.1.dual,
          (Sequence.run before rest skip bb).2.2)
  | [], before, skip, bb => by
    rw [Sequence.seq_run_nil]
    simp only [Composite.duals, Selector.sel_run_nil]
    rw [Node.dual_reset]
    simp [Status.swap, Node.dual, Composite.duals_eq_map]
  | child :: rest, before, skip + 1, bb => by
    have h := Sequence.seq_run_dual rest (before ++ [child]) skip bb
    rw [Sequence.seq_run_skip, ← h]
    simp [Composite.duals, Selector.sel_run_skip, Composite.duals_eq_map]
  | child :: rest, before, 0, bb => by
    have hc := Node.tick_dual child bb
    have h := Sequence.seq_run_dual rest (before ++ [(child.tick bb).2.1]) 0 (child.tick bb).2.2
    rw [Sequence.seq_run_zero]
    simp only [Composite.duals, Selector.sel_run_zero, hc, Status.swap_eq_running,
      Status.swap_eq_success]
    by_cases h1 : (child.tick bb).1 = Status.Running
    · simp [h1, Status.swap, Node.dual, Composite.duals_eq_map]
    · by_cases h2 : (child.tick bb).1 = Status.Failure
      · simp [h2, Status.swap, Node.dual_reset, Node.dual, Composite.duals_eq_map]
      · simp only [if_neg h1, if_neg h2]
        rw [← h]
        simp [Composite.duals_eq_map]
theorem Selector.sel_run_dual : ∀ (rest before : List (Node σ)) (skip : Nat) (bb : σ),
    Sequence.run (Composite.duals before) (Composite.duals rest) skip bb
      = ((Selector.run before rest skip bb).1.swap, (Selector.run before rest skip bb).2.1.dual,
          (Selector.run before rest skip bb).2.2)
  | [], before, skip, bb => by
    rw [Selector.sel_run_nil]
    simp only [Composite.duals, Sequence.seq_run_nil]
    rw [Node.dual_reset]
    simp [Status.swap, Node.dual, Composite.duals_eq_map]
  | child :: rest, before, skip + 1, bb => by
    have h := Selector.sel_run_dual rest (before ++ [child]) skip bb
    rw [Selector.sel_run_skip, ← h]
    simp [Composite.duals, Sequence.seq_run_skip, Composite.duals_eq_map]
  | child :: rest, before, 0, bb => by
    have hc := Node.tick_dual child bb
    have h := Selector.sel_run_dual rest (before ++ [(child.tick bb).2.1]) 0 (child.tick bb).2.2
    rw [Selector.sel_run_zero]
    simp only [Composite.duals, Sequence.seq_run_zero, hc, Status.swap_eq_running,
      Status.swap_eq_failure]
    by_cases h1 : (child.tick bb).1 = Status.Running
    · simp [h1, Status.swap, Node.dual, Composite.duals_eq_map]
    · by_cases h2 : (child.tick bb).1 = Status.Success
      · simp [h2, Status.swap, Node.dual_reset, Node.dual, Composite.duals_eq_map]
      · simp only [if_neg h1, if_neg h2]
        rw [← h]
        simp [Composite.duals_eq_map]
end

/-- Claim C15: Selector is the dual of Sequence.  For every tree `n` in any state and every
blackboard `b`, the tick of the dual of `n` returns the status of the tick of `n` with
`Success` and `Failure` swapped, leaves the same blackboard, and leaves the dual of the
tree state that the tick of `n` leaves. -/
theorem Composite.dual_tick_swaps_status (n : Node Blackboard) (b : Blackboard) :
    (n.dual.tick b).1 = (n.tick b).1.swap ∧
    (n.dual.tick b).2.2 = (n.tick b).2.2 ∧
    (n.dual.tick b).2.1 = (n.tick b).2.1.dual := by
  rw [Node.tick_dual n b]
  exact ⟨rfl, rfl, rfl⟩

/-! ## A tick ends, and reads `children[activeChild]` inside the vector -/

theorem List.getElem?_append_cons_length (before : List α) (x : α) (rest : List α) :
    (before ++ x :: rest)[before.length]? = some x := by
  rw [List.getElem?_append_right (Nat.le_refl _)]
  simp

theorem List.set_append_cons_length (before : List α) (x y : α) (rest : List α) :
    (before ++ x :: rest).set before.length y = (before ++ [y]) ++ rest := by
  simp [List.set_append]

mutual
theorem Node.tickFuel_eq_tick : ∀ (n : Node σ) (fuel : Nat) (bb : σ), n.cost ≤ fuel →
    n.tickFuel fuel bb = Outcome.done (n.tick bb)
  | .ConditionNode cond, fuel, bb, h => by
    obtain ⟨f, rfl⟩ : ∃ f, fuel = f + 1 := ⟨fuel - 1, by simp [Node.cost] at h; omega⟩
    simp [Node.tickFuel, Node.tick]
  | .ActionNode act, fuel, bb, h => by
    obtain ⟨f, rfl⟩ : ∃ f, fuel = f + 1 := ⟨fuel - 1, by simp [Node.cost] at h; omega⟩
    simp [Node.tickFuel, Node.tick]
  | .Sequence children a, fuel, bb, h => by
    obtain ⟨f, rfl⟩ : ∃ f, fuel = f + 1 := ⟨fuel - 1, by simp [Node.cost] at h; omega⟩
    have h' : Composite.cost children ≤ f := by simp [Node.cost] at h; omega
    have := Sequence.seq_tickFuel_eq_run children [] a f bb h'
    simpa [Node.tickFuel, Node.tick] using this
  | .Selector children a, fuel, bb, h => by
    obtain ⟨f, rfl⟩ : ∃ f, fuel = f + 1 := ⟨fuel - 1, by simp [Node.cost] at h; omega⟩
    have h' : Composite.cost children ≤ f := by simp [Node.cost] at h; omega
    have := Selector.sel_tickFuel_eq_run children [] a f bb h'
    simpa [Node.tickFuel, Node.tick] using this
theorem Sequence.seq_tickFuel_eq_run : ∀ (rest before : List (Node σ)) (skip fuel : Nat) (bb : σ),
    Composite.cost rest ≤ fuel →
    Sequence.tickFuel fuel (before ++ rest) (before.length + skip) bb
      = Outcome.done (Sequence.run before rest skip bb)
  | [], before, skip, fuel, bb, h => by
    obtain ⟨f, rfl⟩ : ∃ f, fuel = f + 1 := ⟨fuel - 1, by simp [Composite.cost] at h; omega⟩
    rw [Sequence.seq_run_nil, Sequence.tickFuel]
    simp
  | child :: rest, before, skip + 1, fuel, bb, h => by
    have h' : Composite.cost rest ≤ fuel := by simp [Composite.cost] at h; omega
    have := Sequence.seq_tickFuel_eq_run rest (before ++ [child]) skip fuel bb h'
    rw [Sequence.seq_run_skip, ← this]
    simp [Nat.add_assoc, Nat.add_comm 1 skip]
  | child :: rest, before, 0, fuel, bb, h => by
    obtain ⟨f, rfl⟩ : ∃ f, fuel = f + 1 := ⟨fuel - 1, by simp [Composite.cost] at h; omega⟩
    have h1 : child.cost ≤ f := by simp [Composite.cost] at h; omega
    have h2 : Composite.cost rest ≤ f := by simp [Composite.cost] at h; omega
    have hc := Node.tickFuel_eq_tick child f bb h1
    have hr := Sequence.seq_tickFuel_eq_run rest (before ++ [(child.tick bb).2.1]) 0 f
      (child.tick bb).2.2 h2
    rw [List.length_append, List.length_singleton, Nat.add_zero] at hr
    rw [Sequence.seq_run_zero, Sequence.tickFuel, Nat.add_zero,
      if_pos (by simp), List.getElem?_append_cons_length]
    simp only [hc, List.set_append_cons_length]
    by_cases e1 : (child.tick bb).1 = Status.Running
    · simp [e1]
    · by_cases e2 : (child.tick bb).1 = Status.Failure
      · simp [e2]
      · simp only [if_neg e1, if_neg e2]
        exact hr
theorem Selector.sel_tickFuel_eq_run : ∀ (rest before : List (Node σ)) (skip fuel : Nat) (bb : σ),
    Composite.cost rest ≤ fuel →
    Selector.tickFuel fuel (before ++ rest) (before.length + skip) bb
      = Outcome.done (Selector.run before rest skip bb)
  | [], before, skip, fuel, bb, h => by
    obtain ⟨f, rfl⟩ : ∃ f, fuel = f + 1 := ⟨fuel - 1, by simp [Composite.cost] at h; omega⟩
    rw [Selector.sel_run_nil, Selector.tickFuel]
    simp
  | child :: rest, before, skip + 1, fuel, bb, h => by
    have h' : Composite.cost rest ≤ fuel := by simp [Composite.cost] at h; omega
    have := Selector.sel_tickFuel_eq_run rest (before ++ [child]) skip fuel bb h'
    rw [Selector.sel_run_skip, ← this]
    simp [Nat.add_assoc, Nat.add_comm 1 skip]
  | child :: rest, before, 0, fuel, bb, h => by
    obtain ⟨f, rfl⟩ : ∃ f, fuel = f + 1 := ⟨fuel - 1, by simp [Composite.cost] at h; omega⟩
    have h1 : child.cost ≤ f := by simp [Composite.cost] at h; omega
    have h2 : Composite.cost rest ≤ f := by simp [Composite.cost] at h; omega
    have hc := Node.tickFuel_eq_tick child f bb h1
    have hr := Selector.sel_tickFuel_eq_run rest (before ++ [(child.tick bb).2.1]) 0 f
      (child.tick bb).2.2 h2
    rw [List.length_append, List.length_singleton, Nat.add_zero] at hr
    rw [Selector.sel_run_zero, Selector.tickFuel, Nat.add_zero,
      if_pos (by simp), List.getElem?_append_cons_length]
    simp only [hc, List.set_append_cons_length]
    by_cases e1 : (child.tick bb).1 = Status.Running
    · simp [e1]
    · by_cases e2 : (child.tick bb).1 = Status.Success
      · simp [e2]
      · simp only [if_neg e1, if_neg e2]
        exact hr
end

theorem Composite.tickFuel_inBounds (fuel : Nat) :
    (∀ (n : Node σ) (bb : σ), n.tickFuel fuel bb ≠ Outcome.outOfBounds) ∧
    (∀ (children : List (Node σ)) (activeChild : Nat) (bb : σ),
      Sequence.tickFuel fuel children activeChild bb ≠ Outcome.outOfBounds) ∧
    (∀ (children : List (Node σ)) (activeChild : Nat) (bb : σ),
      Selector.tickFuel fuel children activeChild bb ≠ Outcome.outOfBounds) := by
  induction fuel with
  | zero =>
    refine ⟨fun n bb => ?_, fun children a bb => ?_, fun children a bb => ?_⟩
    · simp [Node.tickFuel]
    · simp [Sequence.tickFuel]
    · simp [Selector.tickFuel]
  | succ f ih =>
    obtain ⟨ihn, ihseq, ihsel⟩ := ih
    refine ⟨fun n bb => ?_, fun children a bb => ?_, fun children a bb => ?_⟩
    · cases n with
      | ConditionNode cond => simp [Node.tickFuel]
      | ActionNode act => simp [Node.tickFuel]
      | Sequence children a => rw [Node.tickFuel]; exact ihseq children a bb
      | Selector children a => rw [Node.tickFuel]; exact ihsel children a bb
    · rw [Sequence.tickFuel]
      by_cases h : a < children.length
      · rw [if_pos h, List.getElem?_eq_getElem h]
        simp only
        cases hc : Node.tickFuel f children[a] bb with
        | done r =>
          simp only
          by_cases e1 : r.1 = Status.Running
          · simp [e1]
          · by_cases e2 : r.1 = Status.Failure
            · simp [e2]
            · simp only [if_neg e1, if_neg e2]
              exact ihseq _ _ _
        | outOfFuel => simp
        | outOfBounds => exact absurd hc (ihn _ _)
      · simp [h]
    · rw [Selector.tickFuel]
      by_cases h : a < children.length
      · rw [if_pos h, List.getElem?_eq_getElem h]
        simp only
        cases hc : Node.tickFuel f children[a] bb with
        | done r =>
          simp only
          by_cases e1 : r.1 = Status.Running
          · simp [e1]
          · by_cases e2 : r.1 = Status.Success
            · simp [e2]
            · simp only [if_neg e1, if_neg e2]
              exact ihsel _ _ _
        | outOfFuel => simp
        | outOfBounds => exact absurd hc (ihn _ _)
      · simp [h]

/-- Claim C14: for every tree of Condition, Action, Sequence and Selector nodes, in any
state, and every blackboard, the tick ends: within `n.cost` steps, and with any larger
bound, the run of `tick` that follows `main.cpp` step by step returns a result, which is
that of `Node.tick`; its status is `Success`, `Failure` or `Running`, and no bound makes
the run read outside `children`. -/
theorem Composite.tick_terminates (n : Node Blackboard) (bb : Blackboard) :
    ∃ r : Status × Node Blackboard × Blackboard,
      (∀ fuel : Nat, n.cost ≤ fuel → n.tickFuel fuel bb = Outcome.done r) ∧
      r = n.tick bb ∧
      (r.1 = Status.Success ∨ r.1 = Status.Failure ∨ r.1 = Status.Running) ∧
      (∀ fuel : Nat, n.tickFuel fuel bb ≠ Outcome.outOfBounds) := by
  refine ⟨n.tick bb, fun fuel h => Node.tickFuel_eq_tick n fuel bb h, rfl, ?_,
    fun fuel => (Composite.tickFuel_inBounds fuel).1 n bb⟩
  cases (n.tick bb).1 <;> simp

/-! ## `activeChild` stays within the children -/

theorem Composite.childrenInBounds_iff (l : List (Node σ)) :
    Composite.childrenInBounds l = true ↔ ∀ c ∈ l, c.inBounds = true := by
  induction l with
  | nil => simp [Composite.childrenInBounds]
  | cons c l ih => simp [Composite.childrenInBounds, ih]

theorem Composite.childrenInBounds_append (l₁ l₂ : List (Node σ)) :
    Composite.childrenInBounds (l₁ ++ l₂) = true
      ↔ Composite.childrenInBounds l₁ = true ∧ Composite.childrenInBounds l₂ = true := by
  simp only [Composite.childrenInBounds_iff, List.mem_append]
  constructor
  · intro h
    exact ⟨fun c hc => h c (Or.inl hc), fun c hc => h c (Or.inr hc)⟩
  · rintro ⟨h1, h2⟩ c (hc | hc)
    · exact h1 c hc
    · exact h2 c hc

mutual
theorem Node.inBounds_of_allZero : ∀ n : Node σ, n.allZero = true → n.inBounds = true
  | .ConditionNode _, _ => rfl
  | .ActionNode _, _ => rfl
  | .Sequence children a, h => by
    simp only [Node.allZero, Bool.and_eq_true, beq_iff_eq] at h
    simp [Node.inBounds, h.1, Composite.childrenInBounds_of_allZero children h.2]
  | .Selector children a, h => by
    simp only [Node.allZero, Bool.and_eq_true, beq_iff_eq] at h
    simp [Node.inBounds, h.1, Composite.childrenInBounds_of_allZero children h.2]
theorem Composite.childrenInBounds_of_allZero : ∀ l : List (Node σ),
    Composite.childrenAllZero l = true → Composite.childrenInBounds l = true
  | [], _ => rfl
  | c :: l, h => by
    simp only [Composite.childrenAllZero, Bool.and_eq_true] at h
    simp [Composite.childrenInBounds, Node.inBounds_of_allZero c h.1,
      Composite.childrenInBounds_of_allZero l h.2]
end

theorem Node.reset_inBounds (n : Node σ) : n.reset.inBounds = true :=
  Node.inBounds_of_allZero _ (Node.reset_allZero n)

theorem Composite.addChild_inBounds (parent child : Node σ) (hp : parent.inBounds = true)
    (hc : child.inBounds = true) : (Composite.addChild parent child).inBounds = true := by
  cases parent with
  | ConditionNode c => rfl
  | ActionNode a => rfl
  | Sequence children a =>
    simp only [Node.inBounds, Bool.and_eq_true, decide_eq_true_eq] at hp
    simp only [Composite.addChild, Node.inBounds, Bool.and_eq_true, decide_eq_true_eq,
      Composite.childrenInBounds_append, List.length_append, List.length_singleton]
    exact ⟨by omega, hp.2, by simp [Composite.childrenInBounds, hc]⟩
  | Selector children a =>
    simp only [Node.inBounds, Bool.and_eq_true, decide_eq_true_eq] at hp
    simp only [Composite.addChild, Node.inBounds, Bool.and_eq_true, decide_eq_true_eq,
      Composite.childrenInBounds_append, List.length_append, List.length_singleton]
    exact ⟨by omega, hp.2, by simp [Composite.childrenInBounds, hc]⟩

mutual
theorem Node.tick_inBounds : ∀ (n : Node σ) (bb : σ), n.inBounds = true →
    (n.tick bb).2.1.inBounds = true
  | .ConditionNode _, _, _ => rfl
  | .ActionNode _, _, _ => rfl
  | .Sequence children a, bb, h => by
    simp only [Node.inBounds, Bool.and_eq_true, decide_eq_true_eq] at h
    rw [Node.tick_Sequence]
    exact Sequence.seq_run_inBounds children [] a bb rfl h.2
  | .Selector children a, bb, h => by
    simp only [Node.inBounds, Bool.and_eq_true, decide_eq_true_eq] at h
    rw [Node.tick_Selector]
    exact Selector.sel_run_inBounds children [] a bb rfl h.2
theorem Sequence.seq_run_inBounds : ∀ (rest before : List (Node σ)) (skip : Nat) (bb : σ),
    Composite.childrenInBounds before = true → Composite.childrenInBounds rest = true →
    (Sequence.run before rest skip bb).2.1.inBounds = true
  | [], before, skip, bb, _, _ => by
    rw [Sequence.seq_run_nil]
    exact Node.reset_inBounds _
  | child :: rest, before, skip + 1, bb, hb, hr => by
    simp only [Composite.childrenInBounds, Bool.and_eq_true] at hr
    rw [Sequence.seq_run_skip]
    exact Sequence.seq_run_inBounds rest (before ++ [child]) skip bb
      ((Composite.childrenInBounds_append _ _).2
        ⟨hb, by simp [Composite.childrenInBounds, hr.1]⟩) hr.2
  | child :: rest, before, 0, bb, hb, hr => by
    simp only [Composite.childrenInBounds, Bool.and_eq_true] at hr
    have hc := Node.tick_inBounds child bb hr.1
    rw [Sequence.seq_run_zero]
    split_ifs
    · simp only [Node.inBounds, Bool.and_eq_true, decide_eq_true_eq,
        Composite.childrenInBounds_append, Composite.childrenInBounds, List.length_append]
      exact ⟨by omega, hb, hc, hr.2⟩
    · exact Node.reset_inBounds _
    · exact Sequence.seq_run_inBounds rest (before ++ [(child.tick bb).2.1]) 0 _
        ((Composite.childrenInBounds_append _ _).2
          ⟨hb, by simp [Composite.childrenInBounds, hc]⟩) hr.2
theorem Selector.sel_run_inBounds : ∀ (rest before : List (Node σ)) (skip : Nat) (bb : σ),
    Composite.childrenInBounds before = true → Composite.childrenInBounds rest = true →
    (Selector.run before rest skip bb).2.1.inBounds = true
  | [], before, skip, bb, _, _ => by
    rw [Selector.sel_run_nil]
    exact Node.reset_inBounds _
  | child :: rest, before, skip + 1, bb, hb, hr => by
    simp only [Composite.childrenInBounds, Bool.and_eq_true] at hr
    rw [Selector.sel_run_skip]
    exact Selector.sel_run_inBounds rest (before ++ [child]) skip bb
      ((Composite.childrenInBounds_append _ _).2
        ⟨hb, by simp [Composite.childrenInBounds, hr.1]⟩) hr.2
  | child :: rest, before, 0, bb, hb, hr => by
    simp only [Composite.childrenInBounds, Bool.and_eq_true] at hr
    have hc := Node.tick_inBounds child bb hr.1
    rw [Selector.sel_run_zero]
    split_ifs
    · simp only [Node.inBounds, Bool.and_eq_true, decide_eq_true_eq,
        Composite.childrenInBounds_append, Composite.childrenInBounds, List.length_append]
      exact ⟨by omega, hb, hc, hr.2⟩
    · exact Node.reset_inBounds _
    · exact Selector.sel_run_inBounds rest (before ++ [(child.tick bb).2.1]) 0 _
        ((Composite.childrenInBounds_append _ _).2
          ⟨hb, by simp [Composite.childrenInBounds, hc]⟩) hr.2
end

theorem Composite.Operated.inBounds {n : Node σ} (h : Composite.Operated n) :
    n.inBounds = true := by
  induction h with
  | condition cond => rfl
  | action act => rfl
  | sequence => rfl
  | selector => rfl
  | addChild _ _ ihp ihc => exact Composite.addChild_inBounds _ _ ihp ihc
  | tick bb _ ih => exact Node.tick_inBounds _ bb ih
  | reset _ _ => exact Node.reset_inBounds _

theorem Sample.mark_is_operated (key : String) (s : Status) :
    Composite.Operated (Sample.mark key s) :=
  Composite.Operated.action _

theorem Sample.operated_is_operated : Composite.Operated Sample.operated :=
  Composite.Operated.tick Blackboard.empty
    (Composite.Operated.addChild
      (Composite.Operated.addChild Composite.Operated.sequence
        (Sample.mark_is_operated "a" Status.Success))
      (Sample.mark_is_operated "b" Status.Running))

/-- Claim C16: in every composite obtained from construction by `addChild`, `tick` and
`reset`, `activeChild` lies within `[0, children.size()]`, for the node and for every
composite below it; and the run of `tick` that follows `main.cpp` step by step, with
any bound on its steps, never reads `children[activeChild]` outside
`children`: the read happens only under `activeChild < children.size()`. -/
theorem Composite.activeChild_inBounds (n : Node Blackboard) (h : Composite.Operated n) :
    n.activeChild ≤ n.children.length ∧
    n.inBounds = true ∧
    (∀ (fuel : Nat) (bb : Blackboard), n.tickFuel fuel bb ≠ Outcome.outOfBounds) := by
  have hb := Composite.Operated.inBounds h
  refine ⟨?_, hb, fun fuel bb => (Composite.tickFuel_inBounds fuel).1 n bb⟩
  cases n with
  | ConditionNode c => simp [Node.activeChild]
  | ActionNode a => simp [Node.activeChild]
  | Sequence children a =>
    simp only [Node.inBounds, Bool.and_eq_true, decide_eq_true_eq] at hb
    exact hb.1
  | Selector children a =>
    simp only [Node.inBounds, Bool.and_eq_true, decide_eq_true_eq] at hb
    exact hb.1

theorem Composite.activeChild_inBounds_witness :
    Composite.Operated Sample.operated ∧
    Sample.operated.activeChild ≤ Sample.operated.children.length ∧
    Sample.operated.inBounds = true ∧
    (∀ (fuel : Nat) (bb : Blackboard),
      Sample.operated.tickFuel fuel bb ≠ Outcome.outOfBounds) :=
  ⟨Sample.operated_is_operated,
    Composite.activeChild_inBounds Sample.operated Sample.operated_is_operated⟩

/-! ## Progress lies along one chain of active children -/

theorem Composite.childrenAllZero_append (l₁ l₂ : List (Node σ)) :
    Composite.childrenAllZero (l₁ ++ l₂) = true
      ↔ Composite.childrenAllZero l₁ = true ∧ Composite.childrenAllZero l₂ = true := by
  simp only [Composite.childrenAllZero_iff, List.mem_append]
  constructor
  · intro h
    exact ⟨fun c hc => h c (Or.inl hc), fun c hc => h c (Or.inr hc)⟩
  · rintro ⟨h1, h2⟩ c (hc | hc)
    · exact h1 c hc
    · exact h2 c hc

theorem Composite.childrenSingleChain_iff (l : List (Node σ)) :
    Composite.childrenSingleChain l = true ↔ ∀ c ∈ l, c.singleChain = true := by
  induction l with
  | nil => simp [Composite.childrenSingleChain]
  | cons c l ih => simp [Composite.childrenSingleChain, ih]

theorem Composite.childrenSingleChain_append (l₁ l₂ : List (Node σ)) :
    Composite.childrenSingleChain (l₁ ++ l₂) = true
      ↔ Composite.childrenSingleChain l₁ = true ∧ Composite.childrenSingleChain l₂ = true := by
  simp only [Composite.childrenSingleChain_iff, List.mem_append]
  constructor
  · intro h
    exact ⟨fun c hc => h c (Or.inl hc), fun c hc => h c (Or.inr hc)⟩
  · rintro ⟨h1, h2⟩ c (hc | hc)
    · exact h1 c hc
    · exact h2 c hc

/-- The children other than the one at `activeChild` are reset: the same, child by child. -/
theorem Composite.othersAllZero_iff (l : List (Node σ)) :
    ∀ a : Nat, Composite.othersAllZero l a = true
      ↔ ∀ (i : Nat) (h : i < l.length), i ≠ a → l[i].allZero = true := by
  induction l with
  | nil => intro a; simp [Composite.othersAllZero]
  | cons c l ih =>
    intro a
    cases a with
    | zero =>
      simp only [Composite.othersAllZero, Composite.childrenAllZero_iff]
      constructor
      · intro h i hi hne
        cases i with
        | zero => exact absurd rfl hne
        | succ j => exact h _ (List.getElem_mem _)
      · intro h x hx
        obtain ⟨j, hj, rfl⟩ := List.getElem_of_mem hx
        exact h (j + 1) (by simp; omega) (by omega)
    | succ k =>
      simp only [Composite.othersAllZero, Bool.and_eq_true, ih k]
      constructor
      · rintro ⟨h0, h⟩ i hi hne
        cases i with
        | zero => exact h0
        | succ j => exact h j (by simpa using hi) (by omega)
      · intro h
        exact ⟨h 0 (by simp) (by omega),
          fun i hi hne => h (i + 1) (by simp; omega) (by omega)⟩

theorem Composite.othersAllZero_of_allZero (l : List (Node σ)) :
    ∀ a : Nat, Composite.childrenAllZero l = true → Composite.othersAllZero l a = true := by
  intro a h
  rw [Composite.othersAllZero_iff]
  intro i hi _
  exact (Composite.childrenAllZero_iff l).1 h _ (List.getElem_mem _)

theorem Composite.othersAllZero_append_cons (before : List (Node σ)) (c : Node σ)
    (rest : List (Node σ)) (hb : Composite.childrenAllZero before = true)
    (hr : Composite.childrenAllZero rest = true) :
    Composite.othersAllZero (before ++ c :: rest) before.length = true := by
  induction before with
  | nil => simpa [Composite.othersAllZero] using hr
  | cons b before ih =>
    simp only [Composite.childrenAllZero, Bool.and_eq_true] at hb
    simp [Composite.othersAllZero, hb.1, ih hb.2]

mutual
theorem Node.singleChain_of_allZero : ∀ n : Node σ, n.allZero = true → n.singleChain = true
  | .ConditionNode _, _ => rfl
  | .ActionNode _, _ => rfl
  | .Sequence children a, h => by
    simp only [Node.allZero, Bool.and_eq_true, beq_iff_eq] at h
    simp [Node.singleChain, Composite.othersAllZero_of_allZero children a h.2,
      Composite.childrenSingleChain_of_allZero children h.2]
  | .Selector children a, h => by
    simp only [Node.allZero, Bool.and_eq_true, beq_iff_eq] at h
    simp [Node.singleChain, Composite.othersAllZero_of_allZero children a h.2,
      Composite.childrenSingleChain_of_allZero children h.2]
theorem Composite.childrenSingleChain_of_allZero : ∀ l : List (Node σ),
    Composite.childrenAllZero l = true → Composite.childrenSingleChain l = true
  | [], _ => rfl
  | c :: l, h => by
    simp only [Composite.childrenAllZero, Bool.and_eq_true] at h
    simp [Composite.childrenSingleChain, Node.singleChain_of_allZero c h.1,
      Composite.childrenSingleChain_of_allZero l h.2]
end

/-- A node that returns a terminal status is left fully reset. -/
theorem Node.terminal_leaves_allZero (n : Node σ) (bb : σ)
    (h : (n.tick bb).1 ≠ Status.Running) : (n.tick bb).2.1.allZero = true := by
  cases n with
  | ConditionNode c => rfl
  | ActionNode a => rfl
  | Sequence children a =>
    rw [Node.tick_terminal (Node.Sequence children a) bb rfl h]
    exact Node.reset_allZero _
  | Selector children a =>
    rw [Node.tick_terminal (Node.Selector children a) bb rfl h]
    exact Node.reset_allZero _

mutual
theorem Node.tick_singleChain : ∀ (n : Node σ) (bb : σ), n.singleChain = true →
    (n.tick bb).2.1.singleChain = true
  | .ConditionNode _, _, _ => rfl
  | .ActionNode _, _, _ => rfl
  | .Sequence children a, bb, h => by
    simp only [Node.singleChain, Bool.and_eq_true] at h
    rw [Node.tick_Sequence]
    exact Sequence.seq_run_singleChain children [] a bb rfl h.1 h.2
  | .Selector children a, bb, h => by
    simp only [Node.singleChain, Bool.and_eq_true] at h
    rw [Node.tick_Selector]
    exact Selector.sel_run_singleChain children [] a bb rfl h.1 h.2
theorem Sequence.seq_run_singleChain : ∀ (rest before : List (Node σ)) (skip : Nat) (bb : σ),
    Composite.childrenAllZero before = true → Composite.othersAllZero rest skip = true →
    Composite.childrenSingleChain rest = true →
    (Sequence.run before rest skip bb).2.1.singleChain = true
  | [], before, skip, bb, _, _, _ => by
    rw [Sequence.seq_run_nil]
    exact Node.singleChain_of_allZero _ (Node.reset_allZero _)
  | child :: rest, before, skip + 1, bb, hb, ho, hs => by
    simp only [Composite.othersAllZero, Bool.and_eq_true] at ho
    simp only [Composite.childrenSingleChain, Bool.and_eq_true] at hs
    rw [Sequence.seq_run_skip]
    exact Sequence.seq_run_singleChain rest (before ++ [child]) skip bb
      ((Composite.childrenAllZero_append _ _).2
        ⟨hb, by simp [Composite.childrenAllZero, ho.1]⟩) ho.2 hs.2
  | child :: rest, before, 0, bb, hb, ho, hs => by
    simp only [Composite.othersAllZero] at ho
    simp only [Composite.childrenSingleChain, Bool.and_eq_true] at hs
    have hc := Node.tick_singleChain child bb hs.1
    rw [Sequence.seq_run_zero]
    split_ifs with h1 h2
    · simp only [Node.singleChain, Bool.and_eq_true, Composite.childrenSingleChain_append,
        Composite.childrenSingleChain]
      exact ⟨Composite.othersAllZero_append_cons before _ rest hb ho,
        Composite.childrenSingleChain_of_allZero before hb, hc, hs.2⟩
    · exact Node.singleChain_of_allZero _ (Node.reset_allZero _)
    · exact Sequence.seq_run_singleChain rest (before ++ [(child.tick bb).2.1]) 0 _
        ((Composite.childrenAllZero_append _ _).2
          ⟨hb, by simp [Composite.childrenAllZero, Node.terminal_leaves_allZero child bb h1]⟩)
        (Composite.othersAllZero_of_allZero rest 0 ho) hs.2
theorem Selector.sel_run_singleChain : ∀ (rest before : List (Node σ)) (skip : Nat) (bb : σ),
    Composite.childrenAllZero before = true → Composite.othersAllZero rest skip = true →
    Composite.childrenSingleChain rest = true →
    (Selector.run before rest skip bb).2.1.singleChain = true
  | [], before, skip, bb, _, _, _ => by
    rw [Selector.sel_run_nil]
    exact Node.singleChain_of_allZero _ (Node.reset_allZero _)
  | child :: rest, before, skip + 1, bb, hb, ho, hs => by
    simp only [Composite.othersAllZero, Bool.and_eq_true] at ho
    simp only [Composite.childrenSingleChain, Bool.and_eq_true] at hs
    rw [Selector.sel_run_skip]
    exact Selector.sel_run_singleChain rest (before ++ [child]) skip bb
      ((Composite.childrenAllZero_append _ _).2
        ⟨hb, by simp [Composite.childrenAllZero, ho.1]⟩) ho.2 hs.2
  | child :: rest, before, 0, bb, hb, ho, hs => by
    simp only [Composite.othersAllZero] at ho
    simp only [Composite.childrenSingleChain, Bool.and_eq_true] at hs
    have hc := Node.tick_singleChain child bb hs.1
    rw [Selector.sel_run_zero]
    split_ifs with h1 h2
    · simp only [Node.singleChain, Bool.and_eq_true, Composite.childrenSingleChain_append,
        Composite.childrenSingleChain]
      exact ⟨Composite.othersAllZero_append_cons before _ rest hb ho,
        Composite.childrenSingleChain_of_allZero before hb, hc, hs.2⟩
    · exact Node.singleChain_of_allZero _ (Node.reset_allZero _)
    · exact Selector.sel_run_singleChain rest (before ++ [(child.tick bb).2.1]) 0 _
        ((Composite.childrenAllZero_append _ _).2
          ⟨hb, by simp [Composite.childrenAllZero, Node.terminal_leaves_allZero child bb h1]⟩)
        (Composite.othersAllZero_of_allZero rest 0 ho) hs.2
end

mutual
theorem Blueprint.build_allZero : ∀ tree : Blueprint σ, tree.build.allZero = true
  | .condition _ => by simp [Blueprint.build, Node.allZero]
  | .action _ => by simp [Blueprint.build, Node.allZero]
  | .sequence children => by
    rw [Blueprint.build_sequence]
    simp [Node.allZero, Blueprint.buildAll_allZero children]
  | .selector children => by
    rw [Blueprint.build_selector]
    simp [Node.allZero, Blueprint.buildAll_allZero children]
theorem Blueprint.buildAll_allZero : ∀ l : List (Blueprint σ),
    Composite.childrenAllZero (Blueprint.buildAll l) = true
  | [] => rfl
  | t :: l => by
    simp [Blueprint.buildAll, Composite.childrenAllZero, Blueprint.build_allZero t,
      Blueprint.buildAll_allZero l]
end

theorem Composite.Reachable.singleChain {n : Node σ} (h : Composite.Reachable n) :
    n.singleChain = true := by
  induction h with
  | fresh tree => exact Node.singleChain_of_allZero _ (Blueprint.build_allZero tree)
  | tick bb _ ih => exact Node.tick_singleChain _ bb ih
  | reset _ _ => exact Node.singleChain_of_allZero _ (Node.reset_allZero _)

/-- Claim C17: in every state of a tree reachable from the freshly constructed tree by
ticks on any blackboards and resets, for every composite of the tree every child other
than the one at position `activeChild` is fully reset (`Node.singleChain`); for the root
this reads: each child at a position other than `activeChild` has `activeChild = 0` in
every composite of its subtree. -/
theorem Composite.reachable_single_chain (n : Node Blackboard) (h : Composite.Reachable n) :
    n.singleChain = true ∧
    ∀ (i : Nat) (hi : i < n.children.length), i ≠ n.activeChild →
      n.children[i].allZero = true := by
  have hs := Composite.Reachable.singleChain h
  refine ⟨hs, ?_⟩
  cases n with
  | ConditionNode c => intro i hi; simp [Node.children] at hi
  | ActionNode a => intro i hi; simp [Node.children] at hi
  | Sequence children a =>
    simp only [Node.singleChain, Bool.and_eq_true] at hs
    exact (Composite.othersAllZero_iff children a).1 hs.1
  | Selector children a =>
    simp only [Node.singleChain, Bool.and_eq_true] at hs
    exact (Composite.othersAllZero_iff children a).1 hs.1

theorem Scenario.waiting_reachable : Composite.Reachable Scenario.waiting :=
  Composite.Reachable.tick Blackboard.empty (Composite.Reachable.fresh Scenario.tree)

theorem Composite.reachable_single_chain_witness :
    Composite.Reachable Scenario.waiting ∧
    Scenario.waiting.singleChain = true ∧
    ∀ (i : Nat) (hi : i < Scenario.waiting.children.length), i ≠ Scenario.waiting.activeChild →
      Scenario.waiting.children[i].allZero = true :=
  ⟨Scenario.waiting_reachable,
    Composite.reachable_single_chain Scenario.waiting Scenario.waiting_reachable⟩

/-! ## On reachable states the reset of the children inside `tick` changes nothing -/

theorem Composite.map_reset_of_allZero (l : List (Node σ))
    (h : Composite.childrenAllZero l = true) : l.map Node.reset = l := by
  rw [← Composite.resetChildren_eq_map]
  exact Composite.resetChildren_of_allZero l h

mutual
theorem Node.tickOwnReset_eq_tick : ∀ (n : Node σ) (bb : σ), n.singleChain = true →
    n.tickOwnReset bb = n.tick bb
  | .ConditionNode _, _, _ => by simp [Node.tickOwnReset, Node.tick]
  | .ActionNode _, _, _ => by simp [Node.tickOwnReset, Node.tick]
  | .Sequence children a, bb, h => by
    simp only [Node.singleChain, Bool.and_eq_true] at h
    rw [Node.tick_Sequence, Node.tickOwnReset]
    exact Sequence.seq_runOwnReset_eq_run children [] a bb rfl h.1 h.2
  | .Selector children a, bb, h => by
    simp only [Node.singleChain, Bool.and_eq_true] at h
    rw [Node.tick_Selector, Node.tickOwnReset]
    exact Selector.sel_runOwnReset_eq_run children [] a bb rfl h.1 h.2
theorem Sequence.seq_runOwnReset_eq_run :
    ∀ (rest before : List (Node σ)) (skip : Nat) (bb : σ),
    Composite.childrenAllZero before = true → Composite.othersAllZero rest skip = true →
    Composite.childrenSingleChain rest = true →
    Sequence.runOwnReset before rest skip bb = Sequence.run before rest skip bb
  | [], before, skip, bb, hb, _, _ => by
    rw [Sequence.seq_run_nil, Node.reset_Sequence, Composite.map_reset_of_allZero before hb]
    cases skip <;> simp [Sequence.runOwnReset]
  | child :: rest, before, skip + 1, bb, hb, ho, hs => by
    simp only [Composite.othersAllZero, Bool.and_eq_true] at ho
    simp only [Composite.childrenSingleChain, Bool.and_eq_true] at hs
    rw [Sequence.seq_run_skip, Sequence.runOwnReset]
    exact Sequence.seq_runOwnReset_eq_run rest (before ++ [child]) skip bb
      ((Composite.childrenAllZero_append _ _).2
        ⟨hb, by simp [Composite.childrenAllZero, ho.1]⟩) ho.2 hs.2
  | child :: rest, before, 0, bb, hb, ho, hs => by
    simp only [Composite.othersAllZero] at ho
    simp only [Composite.childrenSingleChain, Bool.and_eq_true] at hs
    have hc := Node.tickOwnReset_eq_tick child bb hs.1
    rw [Sequence.seq_run_zero, Sequence.runOwnReset]
    simp only [hc]
    by_cases h1 : (child.tick bb).1 = Status.Running
    · simp [h1]
    · have hz : Composite.childrenAllZero (before ++ (child.tick bb).2.1 :: rest) = true :=
        (Composite.childrenAllZero_append _ _).2
          ⟨hb, by simp [Composite.childrenAllZero, Node.terminal_leaves_allZero child bb h1, ho]⟩
      by_cases h2 : (child.tick bb).1 = Status.Failure
      · simp only [if_neg h1, if_pos h2, Node.reset_Sequence,
          Composite.map_reset_of_allZero _ hz]
      · simp only [if_neg h1, if_neg h2]
        exact Sequence.seq_runOwnReset_eq_run rest (before ++ [(child.tick bb).2.1]) 0 _
          ((Composite.childrenAllZero_append _ _).2
            ⟨hb, by simp [Composite.childrenAllZero, Node.terminal_leaves_allZero child bb h1]⟩)
          (Composite.othersAllZero_of_allZero rest 0 ho) hs.2
theorem Selector.sel_runOwnReset_eq_run :
    ∀ (rest before : List (Node σ)) (skip : Nat) (bb : σ),
    Composite.childrenAllZero before = true → Composite.othersAllZero rest skip = true →
    Composite.childrenSingleChain rest = true →
    Selector.runOwnReset before rest skip bb = Selector.run before rest skip bb
  | [], before, skip, bb, hb, _, _ => by
    rw [Selector.sel_run_nil, Node.reset_Selector, Composite.map_reset_of_allZero before hb]
    cases skip <;> simp [Selector.runOwnReset]
  | child :: rest, before, skip + 1, bb, hb, ho, hs => by
    simp only [Composite.othersAllZero, Bool.and_eq_true] at ho
    simp only [Composite.childrenSingleChain, Bool.and_eq_true] at hs
    rw [Selector.sel_run_skip, Selector.runOwnReset]
    exact Selector.sel_runOwnReset_eq_run rest (before ++ [child]) skip bb
      ((Composite.childrenAllZero_append _ _).2
        ⟨hb, by simp [Composite.childrenAllZero, ho.1]⟩) ho.2 hs.2
  | child :: rest, before, 0, bb, hb, ho, hs => by
    simp only [Composite.othersAllZero] at ho
    simp only [Composite.childrenSingleChain, Bool.and_eq_true] at hs
    have hc := Node.tickOwnReset_eq_tick child bb hs.1
    rw [Selector.sel_run_zero, Selector.runOwnReset]
    simp only [hc]
    by_cases h1 : (child.tick bb).1 = Status.Running
    · simp [h1]
    · have hz : Composite.childrenAllZero (before ++ (child.tick bb).2.1 :: rest) = true :=
        (Composite.childrenAllZero_append _ _).2
          ⟨hb, by simp [Composite.childrenAllZero, Node.terminal_leaves_allZero child bb h1, ho]⟩
      by_cases h2 : (child.tick bb).1 = Status.Success
      · simp only [if_neg h1, if_pos h2, Node.reset_Selector,
          Composite.map_reset_of_allZero _ hz]
      · simp only [if_neg h1, if_neg h2]
        exact Selector.sel_runOwnReset_eq_run rest (before ++ [(child.tick bb).2.1]) 0 _
          ((Composite.childrenAllZero_append _ _).2
            ⟨hb, by simp [Composite.childrenAllZero, Node.terminal_leaves_allZero child bb h1]⟩)
          (Composite.othersAllZero_of_allZero rest 0 ho) hs.2
end

/-- Off the reachable states the variant is another function: a composite whose child is
not at position `activeChild` and not reset keeps that child's state in the variant. -/
theorem Composite.tickOwnReset_ne_tick_unreachable :
    ((Node.Sequence [Node.Sequence [Sample.mark "a" Status.Success] 1] 1).tickOwnReset
        Blackboard.empty).2.1
      ≠ ((Node.Sequence [Node.Sequence [Sample.mark "a" Status.Success] 1] 1).tick
        Blackboard.empty).2.1 := by
  intro h
  have := congrArg Node.allZero h
  revert this
  decide

/-- Claim C20: on every state of a tree reachable from the freshly constructed tree by
ticks and resets, and for every blackboard, the variant of `tick` that on `Success` or
`Failure` only sets the composite's own `activeChild` to 0, without resetting the
children, returns the status, the blackboard and the tree state that `tick` returns. -/
theorem Composite.child_reset_redundant (n : Node Blackboard) (bb : Blackboard)
    (h : Composite.Reachable n) :
    (n.tickOwnReset bb).1 = (n.tick bb).1 ∧
    (n.tickOwnReset bb).2.2 = (n.tick bb).2.2 ∧
    (n.tickOwnReset bb).2.1 = (n.tick bb).2.1 := by
  rw [Node.tickOwnReset_eq_tick n bb (Composite.Reachable.singleChain h)]
  exact ⟨rfl, rfl, rfl⟩

theorem Composite.child_reset_redundant_witness :
    Composite.Reachable Scenario.waiting ∧
    (Scenario.waiting.tickOwnReset (Blackboard.empty.setInt "count" 2)).1
      = (Scenario.waiting.tick (Blackboard.empty.setInt "count" 2)).1 ∧
    (Scenario.waiting.tickOwnReset (Blackboard.empty.setInt "count" 2)).2.2
      = (Scenario.waiting.tick (Blackboard.empty.setInt "count" 2)).2.2 ∧
    (Scenario.waiting.tickOwnReset (Blackboard.empty.setInt "count" 2)).2.1
      = (Scenario.waiting.tick (Blackboard.empty.setInt "count" 2)).2.1 :=
  ⟨Composite.Reachable.tick Blackboard.empty (Composite.Reachable.fresh Scenario.tree),
    Composite.child_reset_redundant Scenario.waiting (Blackboard.empty.setInt "count" 2)
      (Composite.Reachable.tick Blackboard.empty (Composite.Reachable.fresh Scenario.tree))⟩

/-! ## `Running` comes from an action -/

theorem Composite.loggedAll_eq_map (l : List (Node σ)) :
    Composite.loggedAll l = l.map Node.logged := by
  induction l with
  | nil => simp [Composite.loggedAll]
  | cons c l ih => simp [Composite.loggedAll, ih]

mutual
theorem Node.logged_reset : ∀ n : Node σ, n.reset.logged = n.logged.reset
  | .ConditionNode _ => rfl
  | .ActionNode _ => rfl
  | .Sequence children _ => by
    simp [Node.reset, Node.logged, Composite.loggedAll_resetChildren children]
  | .Selector children _ => by
    simp [Node.reset, Node.logged, Composite.loggedAll_resetChildren children]
theorem Composite.loggedAll_resetChildren : ∀ l : List (Node σ),
    Composite.loggedAll (Composite.resetChildren l)
      = Composite.resetChildren (Composite.loggedAll l)
  | [] => rfl
  | c :: l => by
    simp [Composite.resetChildren, Composite.loggedAll, Node.logged_reset c,
      Composite.loggedAll_resetChildren l]
end

mutual
theorem Node.tick_logged : ∀ (n : Node σ) (bb : σ) (log : List Status),
    ∃ log' : List Status,
      n.logged.tick (bb, log) = ((n.tick bb).1, (n.tick bb).2.1.logged, ((n.tick bb).2.2, log'))
  | .ConditionNode cond, bb, log => ⟨log, by simp [Node.logged, Node.tick]⟩
  | .ActionNode act, bb, log => ⟨log ++ [(act bb).1], by simp [Node.logged, Node.tick]⟩
  | .Sequence children a, bb, log => by
    obtain ⟨log', h⟩ := Sequence.seq_run_logged children [] a bb log
    exact ⟨log', by simpa [Node.logged, Node.tick, Composite.loggedAll] using h⟩
  | .Selector children a, bb, log => by
    obtain ⟨log', h⟩ := Selector.sel_run_logged children [] a bb log
    exact ⟨log', by simpa [Node.logged, Node.tick, Composite.loggedAll] using h⟩
theorem Sequence.seq_run_logged :
    ∀ (rest before : List (Node σ)) (skip : Nat) (bb : σ) (log : List Status),
    ∃ log' : List Status,
      Sequence.run (Composite.loggedAll before) (Composite.loggedAll rest) skip (bb, log)
        = ((Sequence.run before rest skip bb).1, (Sequence.run before rest skip bb).2.1.logged,
            ((Sequence.run before rest skip bb).2.2, log'))
  | [], before, skip, bb, log => by
    refine ⟨log, ?_⟩
    rw [Sequence.seq_run_nil]
    simp only [Composite.loggedAll, Sequence.seq_run_nil]
    rw [Node.logged_reset]
    simp [Node.logged, Composite.loggedAll_eq_map]
  | child :: rest, before, skip + 1, bb, log => by
    obtain ⟨log', h⟩ := Sequence.seq_run_logged rest (before ++ [child]) skip bb log
    refine ⟨log', ?_⟩
    rw [Sequence.seq_run_skip, ← h]
    simp [Composite.loggedAll, Sequence.seq_run_skip, Composite.loggedAll_eq_map]
  | child :: rest, before, 0, bb, log => by
    obtain ⟨logc, hc⟩ := Node.tick_logged child bb log
    obtain ⟨log', h⟩ := Sequence.seq_run_logged rest (before ++ [(child.tick bb).2.1]) 0
      (child.tick bb).2.2 logc
    rw [Sequence.seq_run_zero]
    simp only [Composite.loggedAll, Sequence.seq_run_zero, hc]
    by_cases h1 : (child.tick bb).1 = Status.Running
    · exact ⟨logc, by simp [h1, Node.logged, Composite.loggedAll_eq_map]⟩
    · by_cases h2 : (child.tick bb).1 = Status.Failure
      · refine ⟨logc, ?_⟩
        simp only [if_neg h1, if_pos h2]
        rw [Node.logged_reset]
        simp [Node.logged, Composite.loggedAll_eq_map]
      · refine ⟨log', ?_⟩
        simp only [if_neg h1, if_neg h2]
        rw [← h]
        simp [Composite.loggedAll_eq_map]
theorem Selector.sel_run_logged :
    ∀ (rest before : List (Node σ)) (skip : Nat) (bb : σ) (log : List Status),
    ∃ log' : List Status,
      Selector.run (Composite.loggedAll before) (Composite.loggedAll rest) skip (bb, log)
        = ((Selector.run before rest skip bb).1, (Selector.run before rest skip bb).2.1.logged,
            ((Selector.run before rest skip bb).2.2, log'))
  | [], before, skip, bb, log => by
    refine ⟨log, ?_⟩
    rw [Selector.sel_run_nil]
    simp only [Composite.loggedAll, Selector.sel_run_nil]
    rw [Node.logged_reset]
    simp [Node.logged, Composite.loggedAll_eq_map]
  | child :: rest, before, skip + 1, bb, log => by
    obtain ⟨log', h⟩ := Selector.sel_run_logged rest (before ++ [child]) skip bb log
    refine ⟨log', ?_⟩
    rw [Selector.sel_run_skip, ← h]
    simp [Composite.loggedAll, Selector.sel_run_skip, Composite.loggedAll_eq_map]
  | child :: rest, before, 0, bb, log => by
    obtain ⟨logc, hc⟩ := Node.tick_logged child bb log
    obtain ⟨log', h⟩ := Selector.sel_run_logged rest (before ++ [(child.tick bb).2.1]) 0
      (child.tick bb).2.2 logc
    rw [Selector.sel_run_zero]
    simp only [Composite.loggedAll, Selector.sel_run_zero, hc]
    by_cases h1 : (child.tick bb).1 = Status.Running
    · exact ⟨logc, by simp [h1, Node.logged, Composite.loggedAll_eq_map]⟩
    · by_cases h2 : (child.tick bb).1 = Status.Success
      · refine ⟨logc, ?_⟩
        simp only [if_neg h1, if_pos h2]
        rw [Node.logged_reset]
        simp [Node.logged, Composite.loggedAll_eq_map]
      · refine ⟨log', ?_⟩
        simp only [if_neg h1, if_neg h2]
        rw [← h]
        simp [Composite.loggedAll_eq_map]
end

mutual
theorem Node.running_logged : ∀ (n : Node σ) (w : σ × List Status),
    (n.logged.tick w).1 = Status.Running → Status.Running ∈ (n.logged.tick w).2.2.2
  | .ConditionNode cond, w, h => by
    cases hc : (cond w.1).1 <;> simp [Node.logged, Node.tick, hc] at h
  | .ActionNode act, w, h => by
    simp only [Node.logged, Node.tick] at h ⊢
    simp [h]
  | .Sequence children a, w, h => by
    simp only [Node.logged, Node.tick] at h ⊢
    exact Sequence.seq_run_running_logged children [] a w h
  | .Selector children a, w, h => by
    simp only [Node.logged, Node.tick] at h ⊢
    exact Selector.sel_run_running_logged children [] a w h
theorem Sequence.seq_run_running_logged :
    ∀ (rest : List (Node σ)) (before : List (Node (σ × List Status))) (skip : Nat)
      (w : σ × List Status),
    (Sequence.run before (Composite.loggedAll rest) skip w).1 = Status.Running →
    Status.Running ∈ (Sequence.run before (Composite.loggedAll rest) skip w).2.2.2
  | [], before, skip, w, h => by
    simp [Composite.loggedAll, Sequence.seq_run_nil] at h
  | child :: rest, before, skip + 1, w, h => by
    simp only [Composite.loggedAll, Sequence.seq_run_skip] at h ⊢
    exact Sequence.seq_run_running_logged rest _ skip w h
  | child :: rest, before, 0, w, h => by
    simp only [Composite.loggedAll, Sequence.seq_run_zero] at h ⊢
    by_cases h1 : (child.logged.tick w).1 = Status.Running
    · simp only [if_pos h1]
      exact Node.running_logged child w h1
    · by_cases h2 : (child.logged.tick w).1 = Status.Failure
      · simp [if_neg h1, if_pos h2] at h
      · simp only [if_neg h1, if_neg h2] at h ⊢
        exact Sequence.seq_run_running_logged rest _ 0 _ h
theorem Selector.sel_run_running_logged :
    ∀ (rest : List (Node σ)) (before : List (Node (σ × List Status))) (skip : Nat)
      (w : σ × List Status),
    (Selector.run before (Composite.loggedAll rest) skip w).1 = Status.Running →
    Status.Running ∈ (Selector.run before (Composite.loggedAll rest) skip w).2.2.2
  | [], before, skip, w, h => by
    simp [Composite.loggedAll, Selector.sel_run_nil] at h
  | child :: rest, before, skip + 1, w, h => by
    simp only [Composite.loggedAll, Selector.sel_run_skip] at h ⊢
    exact Selector.sel_run_running_logged rest _ skip w h
  | child :: rest, before, 0, w, h => by
    simp only [Composite.loggedAll, Selector.sel_run_zero] at h ⊢
    by_cases h1 : (child.logged.tick w).1 = Status.Running
    · simp only [if_pos h1]
      exact Node.running_logged child w h1
    · by_cases h2 : (child.logged.tick w).1 = Status.Success
      · simp [if_neg h1, if_pos h2] at h
      · simp only [if_neg h1, if_neg h2] at h ⊢
        exact Selector.sel_run_running_logged rest _ 0 _ h
end

mutual
theorem Node.hasNoAction_not_running : ∀ (n : Node σ) (bb : σ), n.hasNoAction = true →
    (n.tick bb).1 ≠ Status.Running
  | .ConditionNode cond, bb, _ => by
    cases hc : (cond bb).1 <;> simp [Node.tick, hc]
  | .ActionNode _, _, h => by simp [Node.hasNoAction] at h
  | .Sequence children a, bb, h => by
    rw [Node.tick_Sequence]
    exact Sequence.seq_run_not_running children [] a bb (by simpa [Node.hasNoAction] using h)
  | .Selector children a, bb, h => by
    rw [Node.tick_Selector]
    exact Selector.sel_run_not_running children [] a bb (by simpa [Node.hasNoAction] using h)
theorem Sequence.seq_run_not_running :
    ∀ (rest before : List (Node σ)) (skip : Nat) (bb : σ),
    Composite.haveNoAction rest = true → (Sequence.run before rest skip bb).1 ≠ Status.Running
  | [], before, skip, bb, _ => by simp [Sequence.seq_run_nil]
  | child :: rest, before, skip + 1, bb, h => by
    simp only [Composite.haveNoAction, Bool.and_eq_true] at h
    rw [Sequence.seq_run_skip]
    exact Sequence.seq_run_not_running rest _ skip bb h.2
  | child :: rest, before, 0, bb, h => by
    simp only [Composite.haveNoAction, Bool.and_eq_true] at h
    have hc := Node.hasNoAction_not_running child bb h.1
    rw [Sequence.seq_run_zero, if_neg hc]
    split_ifs
    · simp
    · exact Sequence.seq_run_not_running rest _ 0 _ h.2
theorem Selector.sel_run_not_running :
    ∀ (rest before : List (Node σ)) (skip : Nat) (bb : σ),
    Composite.haveNoAction rest = true → (Selector.run before rest skip bb).1 ≠ Status.Running
  | [], before, skip, bb, _ => by simp [Selector.sel_run_nil]
  | child :: rest, before, skip + 1, bb, h => by
    simp only [Composite.haveNoAction, Bool.and_eq_true] at h
    rw [Selector.sel_run_skip]
    exact Selector.sel_run_not_running rest _ skip bb h.2
  | child :: rest, before, 0, bb, h => by
    simp only [Composite.haveNoAction, Bool.and_eq_true] at h
    have hc := Node.hasNoAction_not_running child bb h.1
    rw [Selector.sel_run_zero, if_neg hc]
    split_ifs
    · simp
    · exact Selector.sel_run_not_running rest _ 0 _ h.2
end

/-- Claim C18: for every tree in any state and every blackboard, the tree with a record of
its actions ticks as the tree does, and if the tick returns `Running` then `Running` is
among the statuses that the step functions of its ActionNodes returned during that tick;
a tree built only from ConditionNodes, Sequences and Selectors never returns `Running`,
and after its tick every `activeChild` is 0. -/
theorem Composite.running_comes_from_action (n : Node Blackboard) (bb : Blackboard) :
    (n.logged.tick (bb, [])).1 = (n.tick bb).1 ∧
    (n.logged.tick (bb, [])).2.2.1 = (n.tick bb).2.2 ∧
    ((n.tick bb).1 = Status.Running → Status.Running ∈ n.actionResults bb) ∧
    (n.hasNoAction = true →
      (n.tick bb).1 ≠ Status.Running ∧ (n.tick bb).2.1.allZero = true) := by
  obtain ⟨log', h⟩ := Node.tick_logged n bb []
  refine ⟨by rw [h], by rw [h], fun hr => ?_, fun hn => ?_⟩
  · exact Node.running_logged n (bb, []) (by rw [h]; exact hr)
  · have hs := Node.hasNoAction_not_running n bb hn
    exact ⟨hs, Node.terminal_leaves_allZero n bb hs⟩

theorem Composite.running_comes_from_action_witness :
    ((Node.Sequence Sample.markWaitMark 0).tick Blackboard.empty).1 = Status.Running ∧
    Status.Running ∈ (Node.Sequence Sample.markWaitMark 0).actionResults Blackboard.empty ∧
    (Node.Selector [Sample.marked "a", Node.Sequence [Sample.marked "b"] 1] 1).hasNoAction
      = true ∧
    ((Node.Selector [Sample.marked "a", Node.Sequence [Sample.marked "b"] 1] 1).tick
        Blackboard.empty).1 ≠ Status.Running ∧
    ((Node.Selector [Sample.marked "a", Node.Sequence [Sample.marked "b"] 1] 1).tick
        Blackboard.empty).2.1.allZero = true :=
  ⟨by decide,
    (Composite.running_comes_from_action (Node.Sequence Sample.markWaitMark 0)
      Blackboard.empty).2.2.1 (by decide),
    by decide,
    (Composite.running_comes_from_action
      (Node.Selector [Sample.marked "a", Node.Sequence [Sample.marked "b"] 1] 1)
      Blackboard.empty).2.2.2 (by decide)⟩

/-- Claim C19: the demo tree `Selector[lowHealth, Sequence[playerNear, attack],
Sequence[chase], idle]` of `main`, ticked 8 times from `health = 100`,
`playerDistance = 15`, `chaseProgress = 0`: the root returns `Running` on ticks 0, 1, 2 and
`Success` on ticks 3 to 7; the lines written are `chasing step 0`, `chasing step 1`,
`chasing step 2`, `Reached player` on ticks 0 to 3 and `attacking Player` on each of the
ticks 4 to 7 (between the lines `Tick i:` and the empty lines of the loop); `Idling` is
never written; at the end `health = 100`, `playerDistance = 5`, `chaseProgress = 0` and
the tree is as built, every `activeChild` being 0. -/
theorem Demo.main_eight_ticks :
    (tickTimes 8 Demo.root Demo.start).1
      = [Status.Running, Status.Running, Status.Running, Status.Success, Status.Success,
          Status.Success, Status.Success, Status.Success] ∧
    (tickTimes 8 Demo.root Demo.start).2.2.out
      = ["chasing step 0", "chasing step 1", "chasing step 2", "Reached player",
          "attacking Player", "attacking Player", "attacking Player", "attacking Player"] ∧
    Demo.main.2.out
      = ["Tick 0:", "chasing step 0", "",
          "Tick 1:", "chasing step 1", "",
          "Tick 2:", "chasing step 2", "",
          "Tick 3:", "Reached player", "",
          "Tick 4:", "attacking Player", "",
          "Tick 5:", "attacking Player", "",
          "Tick 6:", "attacking Player", "",
          "Tick 7:", "attacking Player", ""] ∧
    "Idling" ∉ Demo.main.2.out ∧
    Demo.main.2.bb.getInt "health" = 100 ∧
    Demo.main.2.bb.getInt "playerDistance" = 5 ∧
    Demo.main.2.bb.getInt "chaseProgress" = 0 ∧
    Demo.main.1.root.allZero = true ∧
    Demo.main.1.root = Demo.root ∧
    (tickTimes 8 Demo.root Demo.start).2.1 = Demo.main.1.root ∧
    (tickTimes 8 Demo.root Demo.start).2.2.bb = Demo.main.2.bb := by
  refine ⟨by decide, by decide, by decide, by decide, by decide, by decide, by decide,
    by decide, rfl, rfl, by decide⟩
